import Mathlib

/-! # GPU back-end of the polyhedral tensor-kernel compiler: verification development

Shallow embedding of the parts of
`src/poly/schedule_pass_gpu/operator_mapping_strategy.cc`,
`src/poly/schedule_pass_gpu/shared_memory_manager.cc` and
`src/poly/gpu_emit/gpu_isl_emitter.cc` that the properties below are about.

Conventions.
* `size_t` values are natural numbers; every `size_t` operation that can wrap is
  written with an explicit `% 2 ^ 64`.  `int` values are integers, narrowed with
  `toInt32` where the source narrows.
* Calls into the isl library and into helpers whose bodies are not part of the
  translated files are represented by the value they return (a field of the
  record the function receives).
* A fatal abort (`LOG(FATAL)`, a failed isl call) is the `none` of an `Option`.
-/

namespace Akg

/-! ## Machine integers -/

/-- Number of values of a `size_t`. -/
def SIZE_MOD : Nat := 2 ^ 64

/-- Conversion of an `int` to `size_t` (value modulo `2 ^ 64`). -/
def toSizeT (i : Int) : Nat := (i % (2 ^ 64 : Int)).toNat

/-- Narrowing of an integer value to a 32-bit `int` (two's complement wrap). -/
def toInt32 (i : Int) : Int := (i + 2 ^ 31) % 2 ^ 32 - 2 ^ 31

/-! ## Band nodes of the schedule tree (isl)

A position in the schedule tree is kept as a zipper restricted to the chain of
bands that `split` and `child(0)` can reach from a band: the bands enclosing the
current one (`above`, outermost first), the members of the band at the current
position, and the bands nested beneath it (`below`, outermost first). -/

/-- Schedule node positioned at a band whose members have type `α`. -/
structure BandNode (α : Type) where
  above : List (List α)
  members : List α
  below : List (List α)
deriving DecidableEq, Repr

namespace BandNode

variable {α : Type}

/-- The isl call `band.n_member()`. -/
def n_member (nd : BandNode α) : Nat := nd.members.length

/-- The isl call `band.split(pos)`: the band becomes two nested bands, the outer
one with the first `pos` members and the inner one with the rest; the result is
positioned at the outer band.  isl rejects `pos > n_member`. -/
def split (nd : BandNode α) (pos : Nat) : Option (BandNode α) :=
  if pos ≤ nd.members.length then
    some { above := nd.above
           members := nd.members.take pos
           below := nd.members.drop pos :: nd.below }
  else none

/-- The isl call `node.child(0)` on a band whose single child is a band. -/
def child0 (nd : BandNode α) : Option (BandNode α) :=
  match nd.below with
  | [] => none
  | b :: rest => some { above := nd.above ++ [nd.members], members := b, below := rest }

end BandNode

/-- Source function `OperatorMappingStrategy::GetFinalMappingThreadNumber`
(operator_mapping_strategy.cc, lines 30-49).  `enable_stitch_fusion` is
`scop_info_.user_config_.EnableStitchFusion()`.  The result is the returned
count together with the value left in the reference parameter `node`. -/
def GetFinalMappingThreadNumber {α : Type} (enable_stitch_fusion : Bool)
    (node : BandNode α) (thread_cfg_bound n_thread_map : Nat) : Option (Nat × BandNode α) :=
  let final_n_thread_map := n_thread_map
  let band_node := node
  -- Split band node according to mapping config and coincidence of band node.
  let first : Option (Nat × BandNode α × BandNode α) :=
    if final_n_thread_map > thread_cfg_bound then
      match band_node.split (final_n_thread_map - thread_cfg_bound) with
      | none => none
      | some outer =>
        match outer.child0 with
        | none => none
        | some inner => some (thread_cfg_bound, inner, inner)
    else some (final_n_thread_map, node, band_node)
  match first with
  | none => none
  | some (final_n_thread_map, node, band_node) =>
    -- Split to keep nodes with coincident equals to 1.
    if final_n_thread_map < band_node.n_member ∧ ¬ enable_stitch_fusion then
      match band_node.split final_n_thread_map with
      | none => none
      | some node => some (final_n_thread_map, node)
    else
      some (band_node.n_member, node)

/-! ## Shared memory manager (shared_memory_manager.cc) -/

/-- What `HoistClusters` reads from a `TensorFootprintCluster`: the validity of
its box, the result of `GetFixedBoxSizes()`, the result of
`ReuseTensorCluster(*fp_cluster, partial_sched_mupa)` and the result of
`CoalescingAccessWay(root_node, res_node, *fp_cluster)` (which reads only the
unchanged root and the cluster). -/
structure TensorFootprintCluster where
  box_is_valid : Bool
  fixed_box_sizes : List Nat
  reuse_tensor_cluster : Bool
  coalescing_access_way : Bool
deriving DecidableEq, Repr

/-- One entry of `buffer_def_infos_`.  `footprint_at_node` is the value of
`GetFootPrintClusterGPU(node)` for the node of the running call, `dtype_bytes`
the value of `Bytes(tensor_id)`. -/
structure BufferDefInfo where
  tensor_id : String
  footprints_cluster : Option TensorFootprintCluster
  footprint_at_node : Option TensorFootprintCluster
  dtype_bytes : Nat
  sizes : List Nat
  find_buffer : Bool
deriving DecidableEq, Repr

/-- Members of `SharedMemoryManager` and the parts of `scop_info_` that the
translated functions read.  `atomic_tensors` holds the `tensor_name` of every
entry of `GetAtomicTensors()`, `reduce_tensors` the `write_tensor_name` of every
entry of `GetReduceTensorInfoMap()`; `matrix_a`, `matrix_b`, `matrix_c` are
`GetMatmulTensorsName(scop_info_)` at `MATRIX_A`, `MATRIX_B`, `MATRIX_C`;
`is_tensor_ab name` is `IsTensorAB(name, scop_info_)`. -/
structure SharedMemoryManager where
  bank_conflict_ : Bool
  shared_vector_align_ : Int
  hoist_tensor_c_ : Bool
  configed_tensors_ : List String
  enable_matmul : Bool
  has_transpose : Bool
  enable_akg_reduce_lib : Bool
  atomic_tensors : List String
  reduce_tensors : List String
  matrix_a : String
  matrix_b : String
  matrix_c : String
  is_tensor_ab : String → Bool

/-- Source function `SharedMemoryManager::OptimizeBankConflict` (lines 741-751).
`res.back()` of an empty vector has no meaning in the source; the vector is then
returned as it is. -/
def OptimizeBankConflict (bank_conflict_ : Bool) (sizes : List Nat) : List Nat :=
  match sizes.getLast? with
  | none => sizes
  | some back =>
    if back % 2 = 0 then
      if bank_conflict_ = true ∧ back < 32 then sizes.dropLast ++ [33]
      else sizes.dropLast ++ [(back + 1) % SIZE_MOD]
    else sizes

/-- Source function `SharedMemoryManager::OptimizeVectorAlign` (lines 753-760).
`padsize` is an `int` initialised from a `size_t` remainder; the padding is an
`int` added to a `size_t`. -/
def OptimizeVectorAlign (shared_vector_align_ : Int) (sizes : List Nat) : List Nat :=
  match sizes.getLast? with
  | none => sizes
  | some back =>
    if shared_vector_align_ ≠ 0 then
      let padsize : Int := toInt32 ((back % toSizeT shared_vector_align_ : Nat) : Int)
      let pad : Int := if padsize ≠ 0 then toInt32 (shared_vector_align_ - padsize) else 0
      sizes.dropLast ++ [(back + toSizeT pad) % SIZE_MOD]
    else sizes

/-- Source function `SharedMemoryManager::OptimizeSharedDimension` (lines 734-739). -/
def OptimizeSharedDimension (m : SharedMemoryManager) (sizes : List Nat) : List Nat :=
  let res := sizes
  let res := OptimizeBankConflict m.bank_conflict_ res
  let res := OptimizeVectorAlign m.shared_vector_align_ res
  res

/-- The accumulation `std::accumulate(box_sizes.begin(), box_sizes.end(), 1,
std::multiplies<size_t>())` of `HoistClusters` (line 566): the accumulator has
the type of the initial value `1`, an `int`; each product is formed in `size_t`
and stored back into the `int`. -/
def approximation_size (box_sizes : List Nat) : Int :=
  box_sizes.foldl (fun (acc : Int) (x : Nat) => toInt32 (((toSizeT acc * x) % SIZE_MOD : Nat) : Int)) 1

/-- Lines 564-568 of `HoistClusters`: `memory_requirement` of a candidate with
footprint `fp_cluster` and element byte size `byte`. -/
def memory_requirement (m : SharedMemoryManager) (fp_cluster : TensorFootprintCluster)
    (byte : Nat) : Nat :=
  let box_sizes := OptimizeSharedDimension m fp_cluster.fixed_box_sizes
  (toSizeT (approximation_size box_sizes) * byte) % SIZE_MOD

/-- Source functions `InAtomicTensors(std::string)` and `InReduceTensors`
(lines 709-725). -/
def InAtomicTensors (m : SharedMemoryManager) (name : String) : Bool :=
  m.atomic_tensors.contains name

/-- Source function `SharedMemoryManager::InReduceTensors` (lines 718-725). -/
def InReduceTensors (m : SharedMemoryManager) (name : String) : Bool :=
  m.reduce_tensors.contains name

/-- The `continue` of lines 547-557 (also lines 454-464): in matmul mode the
pass over A and B skips every other tensor and the pass over C skips A and B. -/
def matmulSkips (m : SharedMemoryManager) (name : String) : Bool :=
  m.enable_matmul && (if !m.hoist_tensor_c_ then !m.is_tensor_ab name else m.is_tensor_ab name)

/-- Source function `SharedMemoryManager::GatherBufferFootprintDefInfo`
(lines 493-533), restricted to the size vector it records in `tensor_info`. -/
def GatherBufferFootprintDefInfo (m : SharedMemoryManager) (tensor_info : BufferDefInfo) :
    BufferDefInfo :=
  match tensor_info.footprints_cluster with
  | none => tensor_info
  | some fp_cluster =>
    let sizes := fp_cluster.fixed_box_sizes
    let sizes :=
      if m.enable_matmul = true ∧ tensor_info.tensor_id = m.matrix_c then
        match sizes.getLast? with
        | none => sizes
        | some back => sizes.dropLast ++ [(back + 8) % SIZE_MOD]
      else sizes
    let sizes := if m.bank_conflict_ = true then OptimizeSharedDimension m sizes else sizes
    { tensor_info with sizes := sizes }

/-- State threaded through the loop of `HoistClusters`: the reference parameter
`remaining_memory`, the node `res_node` (kept as the list of tensors for which
`HoistToBlockThreadMemory` spliced a copy subtree, oldest first), and a log of
the amounts subtracted by `remaining_memory -= memory_requirement`, oldest
first. -/
structure HoistState where
  remaining_memory : Nat
  res_node : List String
  deducted : List Nat
deriving DecidableEq, Repr

/-- One iteration of the loop of `HoistClusters` (lines 540-595).  `none` is the
`LOG(FATAL)` of line 561. -/
def HoistClustersStep (m : SharedMemoryManager) (st : HoistState) (buffer_info : BufferDefInfo) :
    Option (HoistState × BufferDefInfo) :=
  match buffer_info.footprint_at_node with
  | none => some (st, buffer_info)
  | some fp_cluster =>
    if fp_cluster.box_is_valid = false then some (st, buffer_info)
    else if matmulSkips m buffer_info.tensor_id = true then some (st, buffer_info)
    else if fp_cluster.fixed_box_sizes.length = 0 then none
    else
      let memory_requirement := memory_requirement m fp_cluster buffer_info.dtype_bytes
      let use_reuse_filter : Bool :=
        if InAtomicTensors m buffer_info.tensor_id || InReduceTensors m buffer_info.tensor_id
        then false else true
      let is_injective : Bool := !fp_cluster.reuse_tensor_cluster
      if memory_requirement < st.remaining_memory then
        let need_shared_memory : Bool :=
          !use_reuse_filter || !is_injective || fp_cluster.coalescing_access_way
        let need_shared_memory := need_shared_memory || m.enable_matmul
        let need_shared_memory := need_shared_memory || m.has_transpose
        if need_shared_memory = false then some (st, buffer_info)
        else
          let buffer_info := GatherBufferFootprintDefInfo m buffer_info
          some ({ remaining_memory := (st.remaining_memory + SIZE_MOD - memory_requirement) % SIZE_MOD
                  res_node := st.res_node ++ [buffer_info.tensor_id]
                  deducted := st.deducted ++ [memory_requirement] },
                { buffer_info with find_buffer := true })
      else some (st, buffer_info)

/-- Source function `SharedMemoryManager::HoistClusters` (lines 535-598): the
loop over `buffer_def_infos_`, returning the final state and the updated
entries. -/
def HoistClusters (m : SharedMemoryManager) :
    HoistState → List BufferDefInfo → Option (HoistState × List BufferDefInfo)
  | st, [] => some (st, [])
  | st, buffer_info :: rest =>
    match HoistClustersStep m st buffer_info with
    | none => none
    | some (st1, buffer_info1) =>
      match HoistClusters m st1 rest with
      | none => none
      | some (st2, rest1) => some (st2, buffer_info1 :: rest1)

/-- Lexicographic comparison of two sequences of character codes. -/
def lexLt : List Nat → List Nat → Bool
  | _, [] => false
  | [], _ :: _ => true
  | a :: as, b :: bs => if a < b then true else if b < a then false else lexLt as bs

/-- The order of `std::string` used by `std::set<std::string>`. -/
def strLt (x y : String) : Bool :=
  lexLt (x.data.map Char.toNat) (y.data.map Char.toNat)

/-- Insertion into a `std::set<std::string>`, kept as the increasing list of its
elements. -/
def setInsert (x : String) : List String → List String
  | [] => [x]
  | y :: ys =>
    if strLt x y = true then x :: y :: ys
    else if x = y then y :: ys
    else y :: setInsert x ys

/-- The loops of lines 406-419 of `CreateClusterList`: the set of the names of
all tensors in a statement-to-tensors map. -/
def collectNames (stmt_map : List (String × List String)) : List String :=
  stmt_map.foldl (fun acc item => item.2.foldl (fun acc item_id => setInsert item_id acc) acc) []

/-- Source function `SharedMemoryManager::AnalysisReduceTensors` (lines 357-391). -/
def AnalysisReduceTensors (m : SharedMemoryManager) : List String :=
  let id_sets : List String := []
  if m.enable_akg_reduce_lib = false then id_sets
  else
    let id_sets := m.atomic_tensors.foldl (fun acc item => setInsert item acc) id_sets
    let id_sets := m.reduce_tensors.foldl (fun acc item => setInsert item acc) id_sets
    id_sets

/-- Lines 399-451 of `CreateClusterList`: the set `id_sets`, whose elements in
increasing order form `tensor_list`.  `read_map` and `write_map` are
`StmtReadMap()` and `StmtWriteMap()`, each statement with the names of its
tensors. -/
def CreateClusterList_id_sets (m : SharedMemoryManager)
    (read_map write_map : List (String × List String)) : List String :=
  let read_sets := collectNames read_map
  let write_sets := collectNames write_map
  -- manage only read tensors to share memory
  let id_sets := read_sets.filter (fun x => !write_sets.contains x)
  let id_sets := if m.enable_akg_reduce_lib then AnalysisReduceTensors m else id_sets
  let id_sets := m.configed_tensors_.foldl (fun acc item => setInsert item acc) id_sets
  let id_sets :=
    if m.enable_matmul then setInsert m.matrix_b (setInsert m.matrix_a id_sets) else id_sets
  id_sets

/-- Source function `SharedMemoryManager::CreateClusterList` (lines 393-491):
the entries appended to `buffer_def_infos_`.  `hoist_footprint item` is the
result of `TensorFootprintCluster::HoistBufferFootprintCluster` for `item`
(`none` for a null pointer), `bytes item` the byte size of its element type. -/
def CreateClusterList (m : SharedMemoryManager)
    (read_map write_map : List (String × List String))
    (hoist_footprint : String → Option TensorFootprintCluster) (bytes : String → Nat)
    (buffer_def_infos_ : List BufferDefInfo) : List BufferDefInfo :=
  let tensor_list := CreateClusterList_id_sets m read_map write_map
  tensor_list.foldl (fun infos item =>
    if matmulSkips m item = true then infos
    else
      match hoist_footprint item with
      | none => infos
      | some cluster =>
        infos ++ [{ tensor_id := item
                    footprints_cluster := some cluster
                    footprint_at_node := some cluster
                    dtype_bytes := bytes item
                    sizes := []
                    find_buffer := false }]) buffer_def_infos_

/-- The candidate set as the specification words it: the union of the read-only
tensors, the configured shared tensors, the atomic and reduce write tensors when
library reduction is enabled, and the two matrix operands when matmul mode is
enabled. -/
def specCandidate (m : SharedMemoryManager) (read_map write_map : List (String × List String))
    (x : String) : Prop :=
  (x ∈ collectNames read_map ∧ x ∉ collectNames write_map) ∨
  x ∈ m.configed_tensors_ ∨
  (m.enable_akg_reduce_lib = true ∧ (x ∈ m.atomic_tensors ∨ x ∈ m.reduce_tensors)) ∨
  (m.enable_matmul = true ∧ (x = m.matrix_a ∨ x = m.matrix_b))

/-! ## GPU emitter (gpu_isl_emitter.cc) -/

/-- Comparison of the condition of an isl for node; `EmitFor` accepts no other
(line 223). -/
inductive IslCondOp where
  | lt
  | le
deriving DecidableEq, Repr

/-- An isl for node `for (iterator = init; iterator op cond_rhs; iterator += inc)`.
The initial value and the bound are kept as the values their expressions have
in the enclosing iteration. -/
structure IslAstFor where
  iterator : String
  init : Int
  cond_op : IslCondOp
  cond_rhs : Int
  inc : Int
deriving DecidableEq, Repr

/-- A `Variable` object as the pointer `iter_expr.get()` identifies it (line 217
creates one in every call of `EmitFor`): `obj` tells the object apart from every
other `Variable` object, `name_hint` is its name.  Two objects of one name are
different keys of `stride_modify_iter_map_`. -/
structure Variable where
  obj : Nat
  name_hint : String
deriving DecidableEq, Repr

/-- The statement `For::make(loop_var, min, extent, ForType::Serial, DeviceAPI::None, body)`:
`loop_var` takes the values `min, min + 1, ..., min + extent - 1`. -/
structure ForStmt (β : Type) where
  loop_var : Variable
  min : Int
  extent : Int
  body : β
deriving DecidableEq, Repr

/-- Emitter state used by `EmitFor`: the iterator stack of `PushIter` and
`PopIter`, the map `stride_modify_iter_map_` from `const Variable *` keys to
expressions, where the entry `(inc, init)` stands for the expression
`iter * inc + init`, and the number `n_variables` of `Variable` objects created so
far, which names the next object.  An entry of the map holds its key object in
its expression, so no later object takes the place of a key. -/
structure EmitterState where
  iters : List Variable
  stride_modify_iter_map_ : List (Variable × (Int × Int))
  n_variables : Nat
deriving DecidableEq, Repr

/-- Source function `GpuIslEmitter::ModifyTheInitExpr` (line 286). -/
def ModifyTheInitExpr (_e : Int) : Int := 0

/-- Source function `GpuIslEmitter::ModifyTheCondExpr` (line 288): integer
division of the expression language, rounding toward zero. -/
def ModifyTheCondExpr (e : Int) (inc : Int) : Int := Int.tdiv e inc

/-- Source function `GpuIslEmitter::ModifyTheIterExpr` (lines 290-292), as the
pair `(inc, init)` of the expression `iter * inc + init`. -/
def ModifyTheIterExpr (inc : Int) (init : Int) : Int × Int := (inc, init)

/-- Source function `GpuIslEmitter::EmitFor` (lines 215-261).  `EmitAst_body` is
the recursive call `EmitAst(node.get_body())`, whose result is `none` for an
undefined statement.  The outer `none` is the failed `CHECK_NE(inc, 0)`.  The
assignment `stride_modify_iter_map_[key] = e` replaces the entry of that key
object or adds one, and `erase(key)` removes the entry of that key object;
entries of other objects stay, also those of the same name. -/
def EmitFor {β : Type} (node : IslAstFor)
    (EmitAst_body : EmitterState → Option β × EmitterState) (st : EmitterState) :
    Option (Option (ForStmt β) × EmitterState) :=
  let iter_expr : Variable := { obj := st.n_variables, name_hint := node.iterator }
  let st := { st with n_variables := st.n_variables + 1 }
  let st := { st with iters := st.iters ++ [iter_expr] }
  let init_expr := node.init
  let cond_expr := node.cond_rhs
  let inc := node.inc
  if inc = 0 then none
  else
    let need_to_modify_inc_ : Bool := decide (inc ≠ 1)
    let original_init_expr := init_expr
    let init_expr := if inc ≠ 1 then ModifyTheInitExpr init_expr else init_expr
    let cond_expr := if inc ≠ 1 then ModifyTheCondExpr cond_expr (toInt32 inc) else cond_expr
    let st :=
      if inc ≠ 1 then
        { st with stride_modify_iter_map_ :=
            (iter_expr, ModifyTheIterExpr (toInt32 inc) original_init_expr) ::
              st.stride_modify_iter_map_.filter (fun e => e.1 ≠ iter_expr) }
      else st
    let cond_expr := if node.cond_op = IslCondOp.le then cond_expr + 1 else cond_expr
    let cond_expr := cond_expr - init_expr
    let (body_stmt, st) := EmitAst_body st
    match body_stmt with
    | none => some (none, { st with iters := st.iters.dropLast })
    | some body_stmt =>
      let st :=
        if need_to_modify_inc_ then
          { st with stride_modify_iter_map_ :=
              st.stride_modify_iter_map_.filter (fun e => e.1 ≠ iter_expr) }
        else st
      let st := { st with iters := st.iters.dropLast }
      some (some { loop_var := iter_expr, min := init_expr, extent := cond_expr, body := body_stmt },
            st)

/-- Values of the iterator of an isl for node with positive stride, in order:
`init, init + inc, ...` while the condition holds. -/
def IslAstFor.visitsFrom (node : IslAstFor) : Nat → Int → List Int
  | 0, _ => []
  | fuel + 1, v =>
    let holds : Bool :=
      match node.cond_op with
      | IslCondOp.lt => decide (v < node.cond_rhs)
      | IslCondOp.le => decide (v ≤ node.cond_rhs)
    if holds then v :: IslAstFor.visitsFrom node fuel (v + node.inc) else []

/-- Values visited by the isl for node; the fuel `cond_rhs - init + 1` covers
every loop with stride at least one. -/
def IslAstFor.visits (node : IslAstFor) : List Int :=
  node.visitsFrom (node.cond_rhs - node.init + 1).toNat node.init

/-- Values the original iterator takes in the loop emitted by `EmitFor` called
with no enclosing loop: the loop variable runs over `[min, min + extent)` and
the body reads the original iterator as `Interpret` does (lines 557-562), through
the entry that `stride_modify_iter_map_` holds for the iterator object of that
name on the stack while the body is emitted (the loop variable itself when there
is no entry).  The stack holds the iterator of this loop only. -/
def EmitFor_visits (node : IslAstFor) : Option (List Int) :=
  match EmitFor node
      (fun st =>
        (some ((st.iters.find? (fun v => v.name_hint = node.iterator)).bind
          (fun var => st.stride_modify_iter_map_.lookup var)), st))
      { iters := [], stride_modify_iter_map_ := [], n_variables := 0 } with
  | some (some f, _) =>
    some ((List.range f.extent.toNat).map (fun k =>
      match f.body with
      | none => f.min + (k : Int)
      | some (inc, init) => (f.min + (k : Int)) * inc + init))
  | _ => none

/-! ## Promotion decision -/

/-- Whether the iteration of `HoistClusters` on `buffer_info` promotes the
tensor, that is, reaches `HoistToBlockThreadMemory` (line 584) and changes the
node. -/
def isPromoted (m : SharedMemoryManager) (st : HoistState) (buffer_info : BufferDefInfo) : Bool :=
  match HoistClustersStep m st buffer_info with
  | none => false
  | some (st1, _) => decide (st1.res_node ≠ st.res_node)

/-- The promotion decision as the specification words it: the required memory
fits the remaining budget and the accesses are non-reusable (injective), or the
access pattern is non-coalesced, or the kernel is a matmul or transpose
kernel. -/
def specPromotes (m : SharedMemoryManager) (st : HoistState) (fp_cluster : TensorFootprintCluster)
    (byte : Nat) : Bool :=
  decide (memory_requirement m fp_cluster byte < st.remaining_memory) &&
    (!fp_cluster.reuse_tensor_cluster || fp_cluster.coalescing_access_way ||
      m.enable_matmul || m.has_transpose)

/-! ## Concrete inputs used by the evaluations below -/

/-- A manager with every option off, for the tensors `A`, `B`, `C`. -/
def plainManager : SharedMemoryManager :=
  { bank_conflict_ := false
    shared_vector_align_ := 0
    hoist_tensor_c_ := true
    configed_tensors_ := []
    enable_matmul := false
    has_transpose := false
    enable_akg_reduce_lib := false
    atomic_tensors := []
    reduce_tensors := []
    matrix_a := "A"
    matrix_b := "B"
    matrix_c := "C"
    is_tensor_ab := fun name => name == "A" || name == "B" }

/-- A valid footprint with the given box sizes and analysis results. -/
def boxCluster (sizes : List Nat) (reuse coalescing : Bool) : TensorFootprintCluster :=
  { box_is_valid := true
    fixed_box_sizes := sizes
    reuse_tensor_cluster := reuse
    coalescing_access_way := coalescing }

/-- A fresh entry of `buffer_def_infos_` for tensor `name`. -/
def freshInfo (name : String) (fp_cluster : TensorFootprintCluster) (byte : Nat) : BufferDefInfo :=
  { tensor_id := name
    footprints_cluster := some fp_cluster
    footprint_at_node := some fp_cluster
    dtype_bytes := byte
    sizes := []
    find_buffer := false }

/-- The state at the entry of `HoistClusters` with budget `budget`. -/
def entryState (budget : Nat) : HoistState :=
  { remaining_memory := budget, res_node := [], deducted := [] }

/-! ## Promotion depth and exact sizes -/

/-- Source function `SharedMemoryManager::UpdateDepth` (lines 660-673): the new
value of the member `depth_`.  `outer_band_n_member` is `none` when the outer
band found by `GetOuterBand` is not a band node, `block_cfg_bound` is
`cfg->bound`, and `under_thread_marker d` is `UnderThreadMarker(d)`.
`std::min<int>` compares its two `size_t` arguments as `int`. -/
def UpdateDepth (depth_ : Int) (outer_band_n_member : Option Nat) (block_cfg_bound : Nat)
    (under_thread_marker : Nat → Bool) : Int :=
  match outer_band_n_member with
  | none => depth_
  | some outer_band_depth =>
    let block_depth : Nat := (block_cfg_bound + 1) % SIZE_MOD
    let block_depth : Nat :=
      toSizeT (min (toInt32 (block_depth : Int)) (toInt32 (outer_band_depth : Int)))
    if block_depth > outer_band_depth ∧ under_thread_marker block_depth = false then
      toInt32 (block_depth : Int)
    else
      toInt32 (outer_band_depth : Int)

/-- Lines 41-47 of `SharedMemoryManager::Run`: the value of `depth_` used by the
hoisting.  The member starts at its initialiser `1`; `shared_depth` is
`GetSharedDepth()`.  `none` is the failed `CHECK_GE(depth_, 0)`. -/
def Run_depth (shared_depth : Int) (outer_band_n_member : Option Nat) (block_cfg_bound : Nat)
    (under_thread_marker : Nat → Bool) : Option Int :=
  let depth_ := UpdateDepth 1 outer_band_n_member block_cfg_bound under_thread_marker
  let depth_ := if shared_depth ≥ 0 then shared_depth else depth_
  if depth_ ≥ 0 then some depth_ else none

/-- The required memory as the specification words it: the exact product of the
padded box extents times the element byte size. -/
def specMemoryRequirement (m : SharedMemoryManager) (fp_cluster : TensorFootprintCluster)
    (byte : Nat) : Nat :=
  (OptimizeSharedDimension m fp_cluster.fixed_box_sizes).prod * byte

/-! ## Atomic-add check (operator_mapping_strategy.cc) -/

/-- What the translated functions read from a `MappingCfg`: the member `bound`
and, for every position, the extent `GetAt(pos).second`. -/
structure MappingCfg where
  bound : Nat
  extent : Nat → Int

/-- The loop of `NeedAtomicAdd` (lines 413-419).  The second component lists the
positions passed to `GetAt`, oldest first. -/
def NeedAtomicAdd_loop (block_cfg : MappingCfg) (non_coin_start_idx : Nat) (reads : List Nat) :
    Bool × List Nat :=
  if non_coin_start_idx < block_cfg.bound then
    let idx := block_cfg.bound - non_coin_start_idx - 1
    if block_cfg.extent idx > 1 then (true, reads ++ [idx])
    else NeedAtomicAdd_loop block_cfg (non_coin_start_idx + 1) (reads ++ [idx])
  else (false, reads)
termination_by block_cfg.bound - non_coin_start_idx
decreasing_by omega

/-- Source function `ReduceMappingStrategy::NeedAtomicAdd` (lines 396-421).
`count_consecutive_coincident` is `CountConsecutiveCoincident(band)`,
`band_n_member` is `band.n_member()`, and `reduce_direction_is_x` says whether
`GetReduceDirection() == X_DIRECTION`.  The result is the returned flag with the
list of the positions passed to `GetAt`. -/
def NeedAtomicAdd (enable_akg_reduce_lib : Bool) (block_cfg : MappingCfg)
    (count_consecutive_coincident band_n_member : Nat) (reduce_direction_is_x : Bool)
    (n_block_map : Nat) : Bool × List Nat :=
  if enable_akg_reduce_lib = false then (false, [])
  else
    let non_coin_start_idx := count_consecutive_coincident
    let is_all_reduce : Bool :=
      decide (band_n_member = 1) && reduce_direction_is_x && decide (non_coin_start_idx = 1)
    let non_coin_start_idx := if is_all_reduce then 0 else non_coin_start_idx
    if n_block_map < non_coin_start_idx then (false, [])
    else NeedAtomicAdd_loop block_cfg non_coin_start_idx []

/-- The number `s` of the statement of `NeedAtomicAdd`: the number of leading
coincident members, taken as `0` for a single-member all-reduce band in the X
direction. -/
def nonCoinStart (count_consecutive_coincident band_n_member : Nat)
    (reduce_direction_is_x : Bool) : Nat :=
  if band_n_member = 1 ∧ reduce_direction_is_x = true ∧ count_consecutive_coincident = 1 then 0
  else count_consecutive_coincident

/-! ## Flag normalisation (scop.cc) -/

/-- The three GPU specialisation flags of the user configuration. -/
structure GpuFlags where
  enable_akg_reduce_lib : Bool
  enable_matmul : Bool
  enable_tensor_core : Bool
deriving DecidableEq, Repr

/-- The loop of lines 155-164 of `Scop::Transform` over the reduce statements,
each given by its operator type `GetReduceOpType(it.first)`: the value of the
reduce-library flag (entered as `true`) and of `has_supported_op` after the
loop. -/
def Transform_reduce_loop (AKG_REDUCE_UNSUPPORTED : String) (AkgSupportedReduceOp : List String) :
    List String → Bool → Bool × Bool
  | [], has_supported_op => (true, has_supported_op)
  | type :: rest, has_supported_op =>
    if type = AKG_REDUCE_UNSUPPORTED then (false, has_supported_op)
    else
      Transform_reduce_loop AKG_REDUCE_UNSUPPORTED AkgSupportedReduceOp rest
        (has_supported_op || AkgSupportedReduceOp.contains type)

/-- Lines 141-168 of `Scop::Transform` (target `TARGET_CUDA`): the flags in
force when the GPU passes run.  `reduce_op_types` lists the operator type of
every entry of `GetReduceTensorInfoMap()`, in the order of the map;
`AKG_REDUCE_UNSUPPORTED` and `AkgSupportedReduceOp` are the constants of the
headers. -/
def Transform_cuda_flags (AKG_REDUCE_UNSUPPORTED : String) (AkgSupportedReduceOp : List String)
    (reduce_op_types : List String) (cfg : GpuFlags) : GpuFlags :=
  let reduce_tensor_info_empty : Bool := reduce_op_types.isEmpty
  let is_reduce := !reduce_tensor_info_empty && !cfg.enable_matmul && cfg.enable_akg_reduce_lib
  let is_matmul := !reduce_tensor_info_empty && !cfg.enable_akg_reduce_lib && cfg.enable_matmul
  let is_tensor_core :=
    !reduce_tensor_info_empty && !cfg.enable_akg_reduce_lib && cfg.enable_tensor_core
  let cfg : GpuFlags :=
    { enable_akg_reduce_lib := is_reduce
      enable_matmul := is_matmul
      enable_tensor_core := is_tensor_core }
  if cfg.enable_akg_reduce_lib then
    let r := Transform_reduce_loop AKG_REDUCE_UNSUPPORTED AkgSupportedReduceOp reduce_op_types false
    { cfg with enable_akg_reduce_lib := r.1 }
  else cfg

/-! ## Block, if and thread extents (gpu_isl_emitter.cc) -/

/-- Statements built by `EmitBlock` and `InsertRealize`: a statement returned by
`EmitAst` for a child (kept as it is), `Block::make(first, rest)`, the node
`Realize::make(t->op, t->value_index, t->dtype, bounds, const_true(1), body)` of
the tensor `t` (its bounds are `[0, extent)` for every extent of `t->shape`, so
`t` fixes them), and the node
`AttrStmt::make(t->op, air::ir::attr::realize_scope, scope, body)`. -/
inductive Stmt (σ τ : Type) where
  | emitted (s : σ)
  | block (first rest : Stmt σ τ)
  | realize (t : τ) (body : Stmt σ τ)
  | attr_realize_scope (t : τ) (scope : String) (body : Stmt σ τ)
deriving DecidableEq, Repr

/-- A child of an isl block node as `EmitBlock` sees it: a user node whose
statement id is a realize marker for tensor `var` (the id without its prefix),
or any other node, given by what `EmitAst(child)` does when the loop calls it:
the statement `body` it returns (`none` for an undefined statement) and the
state `after info` it leaves when called in the state `info`. -/
inductive BlockChild (σ ι : Type) where
  | realizeMarker (var : String)
  | node (body : Option σ) (after : ι → ι)

/-- The values of the enumeration `MemType` as `FindRealizeScopeToString` tells
them apart (lines 409-417): `SHARED_`, `LOCAL_`, and every other value. -/
inductive MemType where
  | SHARED_
  | LOCAL_
  | other
deriving DecidableEq, Repr

/-- Modelled from the spec: the constant `MEM_TYPE_SHARED` is defined in a header
that is not among the translated files; it is the memory-scope attribute
`shared`. -/
def MEM_TYPE_SHARED : String := "shared"

/-- Modelled from the spec: the constant `MEM_TYPE_LOCAL`, the memory-scope
attribute `local`. -/
def MEM_TYPE_LOCAL : String := "local"

/-- What `InsertRealize` and `FindRealizeScopeToString` call and the translated
files do not define, taken as parameters.  `τ` is the type `Tensor`, `β` the type
`Buffer`, and `ι` the state these calls read and change: `info_` with its
bindings and buffer definitions, and the objects created so far.  A result
`none` is an abort inside the call.

* `FindInnerRealize_Mutate name stmt` is `FindInnerRealize(name).Mutate(stmt)`;
* `FindTensorWithLargestShape info var` is `info_.FindTensorWithLargestShape(var)`;
* `GetBind_at info t` is `info_.user_config_.GetBind().at(t)`;
* `placeholder info t` is `placeholder(t->shape, t->dtype, t->op->name)`, a new
  tensor, with the state after its creation;
* `TensorSubstitute stmt t tt` is
  `TensorSubstitute(stmt, t->op, tt->op, tt->value_index)`;
* `SetBind info t buf` is the state after `info_.user_config_.SetBind(t, buf)`;
* `TensorSubstitute2 stmt t` is
  `TensorSubstitute2(stmt, t->op->func_name(), t->op, t->value_index)`;
* `CountBufferDefInfo info var` says whether
  `info_.analysis_result_.CountBufferDefInfo(var)` is not zero;
* `DstMemType info var` is
  `info_.analysis_result_.GetBufferDefInfo(var).DstMemType()`. -/
structure RealizeEnv (σ τ β ι : Type) where
  FindInnerRealize_Mutate : String → Stmt σ τ → Stmt σ τ
  FindTensorWithLargestShape : ι → String → Option τ
  GetBind_at : ι → τ → Option β
  placeholder : ι → τ → τ × ι
  TensorSubstitute : Stmt σ τ → τ → τ → Stmt σ τ
  SetBind : ι → τ → β → ι
  TensorSubstitute2 : Stmt σ τ → τ → Stmt σ τ
  CountBufferDefInfo : ι → String → Bool
  DstMemType : ι → String → MemType

/-- Source function `GpuIslEmitter::FindRealizeScopeToString` (lines 404-420);
`none` is the `LOG(FATAL)` on an unexpected memory type. -/
def FindRealizeScopeToString {σ τ β ι : Type} (H : RealizeEnv σ τ β ι) (info : ι)
    (var : String) : Option String :=
  if H.CountBufferDefInfo info var = true then
    match H.DstMemType info var with
    | MemType.SHARED_ => some MEM_TYPE_SHARED
    | MemType.LOCAL_ => some MEM_TYPE_LOCAL
    | MemType.other => none
  else some ""

/-- Source function `GpuIslEmitter::InsertRealize` (lines 424-457) on the
statement `stmt`, the tensor id `var` and the state `info`: the returned
statement and the state after the call, `none` for an abort (the tensor is not
found, it has no binding, or its memory type is unexpected).  Lines 447-450
change a copy of the buffer definition only. -/
def InsertRealize {σ τ β ι : Type} (H : RealizeEnv σ τ β ι) (stmt : Stmt σ τ) (var : String)
    (info : ι) : Option (Stmt σ τ × ι) :=
  let stmt := H.FindInnerRealize_Mutate var stmt
  match H.FindTensorWithLargestShape info var with
  | none => none
  | some t =>
    match H.GetBind_at info t with
    | none => none
    | some buf =>
      let created := H.placeholder info t
      let tt := created.1
      let info := created.2
      let stmt := H.TensorSubstitute stmt t tt
      let t := tt
      let info := H.SetBind info t buf
      let stmt := H.TensorSubstitute2 stmt t
      let stmt := Stmt.realize t stmt
      match FindRealizeScopeToString H info var with
      | none => none
      | some scope => some (Stmt.attr_realize_scope t scope stmt, info)

/-- The loops `for (int index = start; index >= 0; --index) stmts[index] =
Block::make(stmts[index], stmts[index + 1])` of `EmitBlock` (lines 181-184 and
207-210), for `start ≥ 0`.  `none` stands for an access outside the vector. -/
def EmitBlock_merge {σ τ : Type} : List (Stmt σ τ) → Nat → Option (List (Stmt σ τ))
  | stmts, 0 =>
    match stmts[0]?, stmts[1]? with
    | some a, some b => some (stmts.set 0 (Stmt.block a b))
    | _, _ => none
  | stmts, index + 1 =>
    match stmts[index + 1]?, stmts[index + 2]? with
    | some a, some b => EmitBlock_merge (stmts.set (index + 1) (Stmt.block a b)) index
    | _, _ => none

/-- The statement `stmts[0] = InsertRealize(stmts[0], new_stmt_id)`, with the
state after it. -/
def EmitBlock_realize_front {σ τ β ι : Type} (H : RealizeEnv σ τ β ι) (stmts : List (Stmt σ τ))
    (var : String) (info : ι) : Option (List (Stmt σ τ) × ι) :=
  match stmts with
  | [] => none
  | s :: rest =>
    match InsertRealize H s var info with
    | none => none
    | some (s, info) => some (s :: rest, info)

/-- The loop of `EmitBlock` (lines 163-196) after the children `i = num - 1`
down to the first child of the given list have been processed, started in the
state `info`: the vector `stmts`, the counter `last_num` and the state.  `none`
is the failed `CHECK_NE(stmt_num, 0)`, an access outside the vector or an abort
of `InsertRealize`. -/
def EmitBlock_loop {σ τ β ι : Type} (H : RealizeEnv σ τ β ι) :
    List (BlockChild σ ι) → ι → Option (List (Stmt σ τ) × Int × ι)
  | [], info => some ([], 0, info)
  | child :: later, info =>
    match EmitBlock_loop H later info with
    | none => none
    | some (stmts, last_num, info) =>
      match child with
      | BlockChild.realizeMarker new_stmt_id =>
        let stmt_num : Int := (stmts.length : Int)
        if stmt_num = 0 then none
        else
          let merged : Option (List (Stmt σ τ) × ι) :=
            if stmt_num = 1 then EmitBlock_realize_front H stmts new_stmt_id info
            else if stmt_num - last_num = 1 then EmitBlock_realize_front H stmts new_stmt_id info
            else
              let start : Int := stmt_num - 2 - last_num
              let stmts1 : Option (List (Stmt σ τ)) :=
                if start ≥ 0 then EmitBlock_merge stmts start.toNat else some stmts
              match stmts1 with
              | none => none
              | some stmts1 => EmitBlock_realize_front H stmts1 new_stmt_id info
          match merged with
          | none => none
          | some (stmts, info) => some (stmts, stmt_num - 1, info)
      | BlockChild.node body after =>
        let info := after info
        match body with
        | none => some (stmts, last_num, info)
        | some body => some (Stmt.emitted body :: stmts, last_num, info)

/-- Source function `GpuIslEmitter::EmitBlock` (lines 158-213), started in the
state `info`: the returned statement with the state after the call.  The outer
`none` is an abort, the inner `none` the undefined statement `Stmt()`. -/
def EmitBlock {σ τ β ι : Type} (H : RealizeEnv σ τ β ι) (children : List (BlockChild σ ι))
    (info : ι) : Option (Option (Stmt σ τ) × ι) :=
  match EmitBlock_loop H children info with
  | none => none
  | some (stmts, last_num, info) =>
    let len : Int := (stmts.length : Int)
    if len = 0 then some (none, info)
    else if last_num = len - 1 then
      match stmts[0]? with
      | none => none
      | some s => some (some s, info)
    else
      let start : Int := len - 2 - last_num
      let stmts1 : Option (List (Stmt σ τ)) :=
        if start ≥ 0 then EmitBlock_merge stmts start.toNat else some stmts
      match stmts1 with
      | none => none
      | some stmts1 =>
        match stmts1[0]? with
        | none => none
        | some s => some (some s, info)

/-- The right-nested block `Block(s_1, Block(s_2, ... s_k))` of a non-empty
sequence of statements; a single statement stands for itself. -/
def blockOf {σ τ : Type} : Stmt σ τ → List (Stmt σ τ) → Stmt σ τ
  | s, [] => s
  | s, t :: rest => Stmt.block s (blockOf t rest)

/-- Placing one child in front of the statement built from the children after
it, in the state left by them: a realize marker passes that statement to
`InsertRealize`, an emitted statement forms a block with it, a child without
statement leaves it. -/
def placeBefore {σ τ β ι : Type} (H : RealizeEnv σ τ β ι) (child : BlockChild σ ι)
    (rest : Stmt σ τ) (info : ι) : Option (Stmt σ τ × ι) :=
  match child with
  | BlockChild.realizeMarker var => InsertRealize H rest var info
  | BlockChild.node (some s) after => some (Stmt.block (Stmt.emitted s) rest, after info)
  | BlockChild.node none after => some (rest, after info)

/-- The state after the calls `EmitAst(child)` of the children, made from the
last child to the first, when no child is a realize marker. -/
def afterAll {σ ι : Type} : List (BlockChild σ ι) → ι → ι
  | [], info => info
  | BlockChild.realizeMarker _ :: rest, info => afterAll rest info
  | BlockChild.node _ after :: rest, info => after (afterAll rest info)

/-- The emitted statements inside a statement, left to right. -/
def Stmt.leaves {σ τ : Type} : Stmt σ τ → List σ
  | Stmt.emitted s => [s]
  | Stmt.block a b => a.leaves ++ b.leaves
  | Stmt.realize _ body => body.leaves
  | Stmt.attr_realize_scope _ _ body => body.leaves

/-- The statement `IfThenElse::make(cond, then_case, else_case)`, or a statement
returned as it is. -/
inductive IfStmt (γ β : Type) where
  | plain (s : β)
  | ifThenElse (cond : γ) (then_case : β) (else_case : Option β)
deriving DecidableEq, Repr

/-- Source function `GpuIslEmitter::EmitIf` (lines 263-284) on the member
`cur_if_list_`.  `cond_expr` is `Interpret(node.get_cond())` (`none` for an
undefined expression); `EmitAst_then` is `EmitAst(node.get_then_node())` and
`EmitAst_else` is `EmitAst(node.get_else_node())` when the node has an else
node.  The result is the returned statement (`none` for `Stmt()`) and the list
after the call. -/
def EmitIf {γ β : Type} (cond_expr : Option γ)
    (EmitAst_then : List (Option γ) → Option β × List (Option γ))
    (EmitAst_else : Option (List (Option γ) → Option β × List (Option γ)))
    (cur_if_list_ : List (Option γ)) : Option (IfStmt γ β) × List (Option γ) :=
  let cur_if_list_ := cur_if_list_ ++ [cond_expr]
  let (then_case, cur_if_list_) := EmitAst_then cur_if_list_
  match then_case with
  | none => (none, cur_if_list_)
  | some then_case =>
    let (else_case, cur_if_list_) :=
      match EmitAst_else with
      | none => ((none : Option β), cur_if_list_)
      | some emit => emit cur_if_list_
    let cur_if_list_ := cur_if_list_.dropLast
    match cond_expr with
    | none => (some (IfStmt.plain then_case), cur_if_list_)
    | some cond => (some (IfStmt.ifThenElse cond then_case else_case), cur_if_list_)

/-- Modelled from the spec: the constant `BLOCK_IDX_X` is defined in a header that
is not among the translated files; it is the name of the block index in x. -/
def BLOCK_IDX_X : String := "blockIdx.x"

/-- Modelled from the spec: the constant `BLOCK_IDX_Y`, the name of the block
index in y. -/
def BLOCK_IDX_Y : String := "blockIdx.y"

/-- Modelled from the spec: the constant `BLOCK_IDX_Z`, the name of the block
index in z. -/
def BLOCK_IDX_Z : String := "blockIdx.z"

/-- Modelled from the spec: the constant `THREAD_IDX_X`, the name of the thread
index in x. -/
def THREAD_IDX_X : String := "threadIdx.x"

/-- Modelled from the spec: the constant `THREAD_IDX_Y`, the name of the thread
index in y. -/
def THREAD_IDX_Y : String := "threadIdx.y"

/-- Modelled from the spec: the constant `THREAD_IDX_Z`, the name of the thread
index in z. -/
def THREAD_IDX_Z : String := "threadIdx.z"

/-- The extents `GetX().second`, `GetY().second`, `GetZ().second` of a mapping
config, each an `int`. -/
structure AxisExtents where
  x : Int
  y : Int
  z : Int
deriving DecidableEq, Repr

/-- Source function `GpuIslEmitter::GetThreadExtent` (lines 294-314).
`enable_one_dim_thread` is `GetEnableOneDimThread()`; the product of line 306
is an `int` product. -/
def GetThreadExtent (block_cfg thread_cfg : AxisExtents) (enable_one_dim_thread : Bool)
    (name : String) : Int :=
  if name = BLOCK_IDX_X ∨ name = BLOCK_IDX_Y ∨ name = BLOCK_IDX_Z then
    if name = BLOCK_IDX_X then block_cfg.x
    else if name = BLOCK_IDX_Y then block_cfg.y else block_cfg.z
  else if name = THREAD_IDX_X ∨ name = THREAD_IDX_Y ∨ name = THREAD_IDX_Z then
    if enable_one_dim_thread = true then
      if name = THREAD_IDX_X then toInt32 (toInt32 (thread_cfg.x * thread_cfg.y) * thread_cfg.z)
      else 1
    else
      if name = THREAD_IDX_X then thread_cfg.x
      else if name = THREAD_IDX_Y then thread_cfg.y else thread_cfg.z
  else 1

/-- The live front part of the vector `stmts` of `EmitBlock` after the given
children have been processed (the `stmts.size() - last_num` leading entries),
with the state: an emitted statement is put in front, and a realize marker
replaces the whole part by what `InsertRealize` returns for its merged block.
`none` is the abort on a marker met with no statement, or of `InsertRealize`. -/
def EmitBlock_pending {σ τ β ι : Type} (H : RealizeEnv σ τ β ι) :
    List (BlockChild σ ι) → ι → Option (List (Stmt σ τ) × ι)
  | [], info => some ([], info)
  | child :: later, info =>
    match EmitBlock_pending H later info with
    | none => none
    | some (pending, info) =>
      match child with
      | BlockChild.node none after => some (pending, after info)
      | BlockChild.node (some s) after => some (Stmt.emitted s :: pending, after info)
      | BlockChild.realizeMarker var =>
        match pending with
        | [] => none
        | a :: rest =>
          match InsertRealize H (blockOf a rest) var info with
          | none => none
          | some (s, info) => some ([s], info)

/-- Modelled from the spec: the class `FindInnerRealize` is defined outside the
translated files, and the spec names the realize scope of a temporary without
wording this mutator, so it is modelled after its use: `InsertRealize` rewrites
the statement with it for the name of the tensor before it puts the new realize
node around the statement, which leaves the temporary one realize node, the
outer one.  The mutator replaces every realize node of a tensor with that name
inside the statement by the body of the node and keeps everything else.
`name_of t` is `t->op->name`. -/
def FindInnerRealize_strip {σ τ : Type} (name_of : τ → String) (name : String) :
    Stmt σ τ → Stmt σ τ
  | Stmt.emitted s => Stmt.emitted s
  | Stmt.block a b =>
    Stmt.block (FindInnerRealize_strip name_of name a) (FindInnerRealize_strip name_of name b)
  | Stmt.realize t body =>
    if name_of t = name then FindInnerRealize_strip name_of name body
    else Stmt.realize t (FindInnerRealize_strip name_of name body)
  | Stmt.attr_realize_scope t scope body =>
    Stmt.attr_realize_scope t scope (FindInnerRealize_strip name_of name body)

/-- Index expressions built by `AdaptThreadNewVar` and `AdaptBlockNewVar`:
the entry `iter_name_map_[name]`, `Div::make(e, d)` and `Mod::make(e, d)`. -/
inductive IdxExpr where
  | var (name : String)
  | div (e : IdxExpr) (d : Int)
  | mod (e : IdxExpr) (d : Int)
deriving DecidableEq, Repr

/-- Value of an index expression; `Div` and `Mod` on `int` round toward zero. -/
def IdxExpr.eval (env : String → Int) : IdxExpr → Int
  | IdxExpr.var name => env name
  | IdxExpr.div e d => Int.tdiv (IdxExpr.eval env e) d
  | IdxExpr.mod e d => Int.tmod (IdxExpr.eval env e) d

/-- Whether the characters `pat` occur as a contiguous part of `s`. -/
def findSubChars (pat : List Char) : List Char → Bool
  | [] => pat.isEmpty
  | c :: cs => pat.isPrefixOf (c :: cs) || findSubChars pat cs

/-- The test `name.find(pat) != std::string::npos`. -/
def findSub (pat name : String) : Bool := findSubChars pat.data name.data

/-- Modelled from the spec: the constant `T0` is defined in a header that is not
among the translated files; it is the name `t0` of the first thread axis, under
which the 1-D thread index is registered in `iter_name_map_`. -/
def T0 : String := "t0"

/-- Modelled from the spec: the constant `T1`, the name `t1` of the second thread
axis. -/
def T1 : String := "t1"

/-- Lines 531-546 of `AdaptThreadNewVar`: the expression built for axis `i`. -/
def AdaptThreadNewVar_expr (mapping_cfg : MappingCfg) (i : Nat) : IdxExpr :=
  let e := IdxExpr.var T0
  if i = 0 then IdxExpr.mod e (mapping_cfg.extent i)
  else
    let e := (List.range i).foldl (fun e j => IdxExpr.div e (mapping_cfg.extent j)) e
    IdxExpr.mod e (mapping_cfg.extent i)

/-- Source function `GpuIslEmitter::AdaptThreadNewVar` (lines 510-550).
`WARP_COMPUTE` and `WARP_SIZE` are the constants of the headers, `mx` is
`mapping_cfg->GetX().second`.  The loop over `i` returns at the first `i` below
`bound` for which `name` contains `"t" + std::to_string(i)`.  `none` is the
undefined expression. -/
def AdaptThreadNewVar (WARP_COMPUTE : String) (WARP_SIZE mx : Int) (name : String)
    (mapping_cfg : MappingCfg) : Option IdxExpr :=
  if findSub WARP_COMPUTE name = true then
    if findSub T0 name = true then
      some (IdxExpr.mod (IdxExpr.div (IdxExpr.var T0) WARP_SIZE) mx)
    else if findSub T1 name = true then
      some (IdxExpr.div (IdxExpr.div (IdxExpr.var T0) WARP_SIZE) mx)
    else none
  else
    match (List.range mapping_cfg.bound).find? (fun i => findSub ("t" ++ toString i) name) with
    | none => none
    | some i => some (AdaptThreadNewVar_expr mapping_cfg i)

/-- The names of the block axes and of the convolution replacement configs used
by `AdaptBlockNewVar`: the constants `B0`, `B1`, `B2`, `CONV_H_W`, `CONV_N`,
`CONV_O` of the headers. -/
structure BlockNames where
  B0 : String
  B1 : String
  B2 : String
  CONV_H_W : String
  CONV_N : String
  CONV_O : String

/-- Source function `GpuIslEmitter::AdaptBlockNewVar` (lines 491-508).  `mx` is
`mapping_cfg->GetX().second`. -/
def AdaptBlockNewVar (names : BlockNames) (mx : Int) (name : String) : Option IdxExpr :=
  if findSub names.CONV_H_W name = true then
    if findSub names.B0 name = true then some (IdxExpr.mod (IdxExpr.var names.B1) mx)
    else if findSub names.B1 name = true then some (IdxExpr.div (IdxExpr.var names.B1) mx)
    else none
  else if findSub names.CONV_N name = true then some (IdxExpr.var names.B2)
  else if findSub names.CONV_O name = true then some (IdxExpr.var names.B0)
  else none

/-! ## Block mapping (operator_mapping_strategy.cc) -/

/-- Lines 93-106 of `OperatorMappingStrategy::MapBlockHelper`: the list handed to
`CreateAndInsertMapFilter`, for a permutable band whose partial schedule has the
dimensions `upa_list`.  The isl call `drop(first, n)` removes the `n` elements
from position `first` on and fails when there are not that many; `none` is that
failure. -/
def MapBlockHelper_upa_list {α : Type} (upa_list : List α) (n_block_map : Nat) :
    Option (List α) :=
  if n_block_map ≤ upa_list.length then
    some ((upa_list.take n_block_map ++
      upa_list.drop (n_block_map + (upa_list.length - n_block_map))).reverse)
  else none

/-- Lines 490-492 of `ConvMappingStrategy::ResetConvBlockMappingConfig`: the two
extents written into the replacement config `CONV_H_W`, for the H extent
`extent_h` and the extent `block_y` of `block_cfg->GetY()`.  `none` is the
division by zero. -/
def ResetConvBlockMappingConfig_h_w (extent_h block_y : Int) : Option (Int × Int) :=
  let bind_block_h := min (toInt32 extent_h) block_y
  if bind_block_h = 0 then none
  else some (toInt32 (Int.tdiv block_y bind_block_h), bind_block_h)

/-! ## Replacement thread config (shared_memory_manager.cc) -/

/-- Lines 299-302 of `GetCurrentConfig`: the `int` product of the thread-config
extents. -/
def GetCurrentConfig_total_thread (thread_cfg : MappingCfg) : Int :=
  (List.range thread_cfg.bound).foldl (fun total_thread i =>
    toInt32 (total_thread * thread_cfg.extent i)) 1

/-- The loop of lines 306-315 of `GetCurrentConfig` over the extents `extend`
of the copy band (`upa_list.get_at(i).floor().max_val() + 1`), from the current
`total_thread`: the numbers appended to `new_cfg`, and the pairs
`(total_thread, extend)` of the divisions `total_thread /= extend` performed.
`none` is a division by zero. -/
def GetCurrentConfig_loop : Int → List Int → Option (List Int × List (Int × Int))
  | _, [] => some ([], [])
  | total_thread, extend :: rest =>
    if extend ≥ total_thread ∨ (rest = [] ∧ extend < total_thread) then
      some ([total_thread], [])
    else if extend = 0 then none
    else
      match GetCurrentConfig_loop (toInt32 (Int.tdiv total_thread extend)) rest with
      | none => none
      | some (new_cfg, divisions) => some (extend :: new_cfg, (total_thread, extend) :: divisions)

/-- Lines 296-318 of `SharedMemoryManager::GetCurrentConfig`: the entries of the
replacement config generated for a copy band with the extents `extents`; the
outer `none` is a division by zero, the inner `none` the `nullptr` returned for
an empty `new_cfg`. -/
def GetCurrentConfig_new_cfg (thread_cfg : MappingCfg) (extents : List Int) :
    Option (Option (List Int) × List (Int × Int)) :=
  match GetCurrentConfig_loop (GetCurrentConfig_total_thread thread_cfg) extents with
  | none => none
  | some (new_cfg, divisions) =>
    if new_cfg.isEmpty then some (none, divisions) else some (some new_cfg, divisions)

/-! ## Size of the materialized buffer -/

/-- Byte size of the shared buffer declared by `GatherBufferFootprintDefInfo`:
the product of the recorded sizes times the element byte size. -/
def bufferBytes (tensor_info : BufferDefInfo) : Nat :=
  tensor_info.sizes.prod * tensor_info.dtype_bytes

/-- A matmul manager in the pass over matrix C. -/
def matmulManagerC : SharedMemoryManager :=
  { plainManager with enable_matmul := true, hoist_tensor_c_ := true, configed_tensors_ := ["C"] }

/-- Names used in the evaluations of `AdaptBlockNewVar` below. -/
def convNames : BlockNames :=
  { B0 := "b0", B1 := "b1", B2 := "b2", CONV_H_W := "conv_h_w", CONV_N := "conv_n",
    CONV_O := "conv_o" }

/-- A replacement thread config with the extents `32, 4`. -/
def threadCfg32x4 : MappingCfg :=
  { bound := 2, extent := fun i => if i = 0 then 32 else 4 }

/-- An `iter_name_map_` in which the 1-D thread index has the value `T`. -/
def threadEnv (T : Int) : String → Int := fun _ => T

/-! ## Theorems -/

/-! ### Band splitting -/

theorem GetFinalMappingThreadNumber_result {α : Type} (node : BandNode α) (b n : Nat)
    (hnm : n ≤ node.n_member) :
    GetFinalMappingThreadNumber false node b n =
      some (min n b,
        { above := node.above ++ (if b < n then [node.members.take (n - b)] else [])
          members := (node.members.take n).drop (n - min n b)
          below := (if n < node.n_member then [node.members.drop n] else []) ++ node.below }) := by
  obtain ⟨ab, ms, bl⟩ := node
  simp only [BandNode.n_member] at hnm
  unfold GetFinalMappingThreadNumber
  by_cases hb : b < n
  · have h1 : n - b ≤ ms.length := by omega
    have hmin : min n b = b := by omega
    by_cases hlt : n < ms.length
    · have h2 : b < ms.length - (n - b) := by omega
      have h3 : b ≤ ms.length - (n - b) := by omega
      have h4 : n - b + b = n := by omega
      simp [BandNode.split, BandNode.child0, BandNode.n_member, hb, h1, hmin, hlt, h2, h3,
        List.drop_take, h4]
      omega
    · have h2 : ¬ b < ms.length - (n - b) := by omega
      have h5 : ms.length - (n - b) = b := by omega
      have h6 : ms.length ≤ n := by omega
      simp [BandNode.split, BandNode.child0, BandNode.n_member, hb, h1, hmin, hlt, h2, h5,
        List.take_of_length_le h6]
  · have hmin : min n b = n := by omega
    by_cases hlt : n < ms.length
    · simp [BandNode.split, BandNode.n_member, hb, hmin, hlt, hnm]
    · have h6 : ms.length ≤ n := by omega
      have h7 : ms.length = n := by omega
      simp [BandNode.split, BandNode.n_member, hb, hmin, hlt, List.take_of_length_le h6, h7]

/-- C1. `GetFinalMappingThreadNumber` with fusion-stitch mode off: for a band
with `m` members of which the first `n ≤ m` are counted as coincident and every
config bound `b`, the call returns `min n (min b m)` and the band left at `node`
has exactly that many members. -/
theorem GetFinalMappingThreadNumber_count {α : Type} (node : BandNode α) (b n : Nat)
    (hnm : n ≤ node.n_member) :
    ∃ node1, GetFinalMappingThreadNumber false node b n =
        some (min n (min b node.n_member), node1) ∧
      node1.n_member = min n (min b node.n_member) := by
  have hk : min n (min b node.n_member) = min n b := by omega
  rw [hk, GetFinalMappingThreadNumber_result node b n hnm]
  refine ⟨_, rfl, ?_⟩
  simp only [BandNode.n_member] at hnm ⊢
  simp only [List.length_drop, List.length_take]
  omega

theorem GetFinalMappingThreadNumber_count_witness :
    2 ≤ (BandNode.mk [] [10, 11, 12] [] : BandNode Nat).n_member ∧
    ∃ node1, GetFinalMappingThreadNumber false (BandNode.mk [] [10, 11, 12] [] : BandNode Nat) 5 2 =
        some (min 2 (min 5 (BandNode.mk [] [10, 11, 12] [] : BandNode Nat).n_member), node1) ∧
      node1.n_member = min 2 (min 5 (BandNode.mk [] [10, 11, 12] [] : BandNode Nat).n_member) :=
  ⟨by decide, GetFinalMappingThreadNumber_count (BandNode.mk [] [10, 11, 12] []) 5 2 (by decide)⟩

/-- C2, as stated, fails: with three coincident members `10, 11, 12` and bound
`2`, the band selected for mapping is `11, 12`, not the leading `10, 11`, and
member `10` is left in a band enclosing the mapped band, not nested inside it. -/
theorem GetFinalMappingThreadNumber_not_leading :
    GetFinalMappingThreadNumber false (BandNode.mk [] [10, 11, 12] [] : BandNode Nat) 2 3 =
        some (2, BandNode.mk [[10]] [11, 12] []) ∧
      ([11, 12] : List Nat) ≠ List.take 2 [10, 11, 12] := by
  decide

/-- C2 (amended). `GetFinalMappingThreadNumber` with fusion-stitch mode off: for
a band with members `d_0 .. d_(m-1)`, `n ≤ m` leading coincident members and
bound `b`, with `k = min n b`, the band selected for mapping consists of the
members `d_(n-k) .. d_(n-1)` (the last `k` of the `n` coincident ones); the
members `d_n .. d_(m-1)`, when there are any, form a band nested directly below
it; and when `n > b` the members `d_0 .. d_(n-b-1)` form a band directly
enclosing it. -/
theorem GetFinalMappingThreadNumber_selected {α : Type} (node : BandNode α) (b n : Nat)
    (hnm : n ≤ node.n_member) :
    ∃ node1, GetFinalMappingThreadNumber false node b n = some (min n b, node1) ∧
      node1.members = (node.members.take n).drop (n - min n b) ∧
      node1.above = node.above ++ (if b < n then [node.members.take (n - b)] else []) ∧
      node1.below = (if n < node.n_member then [node.members.drop n] else []) ++ node.below := by
  rw [GetFinalMappingThreadNumber_result node b n hnm]
  exact ⟨_, rfl, rfl, rfl, rfl⟩

theorem GetFinalMappingThreadNumber_selected_witness :
    3 ≤ (BandNode.mk [] [10, 11, 12, 13] [] : BandNode Nat).n_member ∧
    ∃ node1, GetFinalMappingThreadNumber false (BandNode.mk [] [10, 11, 12, 13] [] : BandNode Nat) 2 3 =
        some (min 3 2, node1) ∧
      node1.members = (List.take 3 [10, 11, 12, 13]).drop (3 - min 3 2) ∧
      node1.above = [] ++ (if 2 < 3 then [List.take (3 - 2) [10, 11, 12, 13]] else []) ∧
      node1.below =
        (if 3 < (BandNode.mk [] [10, 11, 12, 13] [] : BandNode Nat).n_member
          then [List.drop 3 [10, 11, 12, 13]] else []) ++ [] :=
  ⟨by decide, GetFinalMappingThreadNumber_selected (BandNode.mk [] [10, 11, 12, 13] []) 2 3 (by decide)⟩

/-! ### Greedy promotion under the budget -/

theorem GatherBufferFootprintDefInfo_tensor_id (m : SharedMemoryManager) (b : BufferDefInfo) :
    (GatherBufferFootprintDefInfo m b).tensor_id = b.tensor_id := by
  unfold GatherBufferFootprintDefInfo
  cases b.footprints_cluster <;> rfl

/-- The state after the acceptance of a candidate whose requirement is `req`. -/
theorem HoistClustersStep_eq (m : SharedMemoryManager) (st : HoistState) (b : BufferDefInfo)
    (fp : TensorFootprintCluster) (hfp : b.footprint_at_node = some fp)
    (hv : fp.box_is_valid = true) (hs : matmulSkips m b.tensor_id = false)
    (hne : fp.fixed_box_sizes ≠ []) :
    HoistClustersStep m st b =
      if memory_requirement m fp b.dtype_bytes < st.remaining_memory ∧
          (InAtomicTensors m b.tensor_id = true ∨ InReduceTensors m b.tensor_id = true ∨
            fp.reuse_tensor_cluster = true ∨ fp.coalescing_access_way = true ∨
            m.enable_matmul = true ∨ m.has_transpose = true) then
        some ({ remaining_memory :=
                  (st.remaining_memory + SIZE_MOD - memory_requirement m fp b.dtype_bytes) % SIZE_MOD
                res_node := st.res_node ++ [b.tensor_id]
                deducted := st.deducted ++ [memory_requirement m fp b.dtype_bytes] },
              { GatherBufferFootprintDefInfo m b with find_buffer := true })
      else some (st, b) := by
  have hlen : fp.fixed_box_sizes.length ≠ 0 := by
    intro h; exact hne (List.length_eq_zero.mp h)
  unfold HoistClustersStep
  simp only [hfp, hv, hs, hlen, GatherBufferFootprintDefInfo_tensor_id]
  by_cases hfit : memory_requirement m fp b.dtype_bytes < st.remaining_memory
  · cases h1 : InAtomicTensors m b.tensor_id <;> cases h2 : InReduceTensors m b.tensor_id <;>
      cases h3 : fp.reuse_tensor_cluster <;> cases h4 : fp.coalescing_access_way <;>
      cases h5 : m.enable_matmul <;> cases h6 : m.has_transpose <;> simp [hfit]
  · simp [hfit]

theorem HoistClustersStep_skip (m : SharedMemoryManager) (st : HoistState) (b : BufferDefInfo)
    (h : b.footprint_at_node = none ∨
      ∃ fp, b.footprint_at_node = some fp ∧
        (fp.box_is_valid = false ∨ matmulSkips m b.tensor_id = true)) :
    HoistClustersStep m st b = some (st, b) := by
  unfold HoistClustersStep
  rcases h with h | ⟨fp, hfp, h | h⟩
  · simp [h]
  · simp [hfp, h]
  · simp [hfp, h]

theorem HoistClustersStep_log (m : SharedMemoryManager) (st st1 : HoistState)
    (b b1 : BufferDefInfo) (hR : st.remaining_memory < SIZE_MOD)
    (h : HoistClustersStep m st b = some (st1, b1)) :
    (st1 = st ∧ b1 = b) ∨
      ∃ req, req < st.remaining_memory ∧ st1.remaining_memory = st.remaining_memory - req ∧
        st1.deducted = st.deducted ++ [req] ∧ st1.res_node = st.res_node ++ [b.tensor_id] ∧
        0 < st1.remaining_memory := by
  cases hfp : b.footprint_at_node with
  | none =>
    rw [HoistClustersStep_skip m st b (Or.inl hfp)] at h
    simp only [Option.some.injEq, Prod.mk.injEq] at h
    exact Or.inl ⟨h.1.symm, h.2.symm⟩
  | some fp =>
    by_cases hskip : fp.box_is_valid = false ∨ matmulSkips m b.tensor_id = true
    · rw [HoistClustersStep_skip m st b (Or.inr ⟨fp, hfp, hskip⟩)] at h
      simp only [Option.some.injEq, Prod.mk.injEq] at h
      exact Or.inl ⟨h.1.symm, h.2.symm⟩
    · have hv : fp.box_is_valid = true := by
        cases hb : fp.box_is_valid
        · exact absurd (Or.inl hb) hskip
        · rfl
      have hs : matmulSkips m b.tensor_id = false := by
        cases hb : matmulSkips m b.tensor_id
        · rfl
        · exact absurd (Or.inr hb) hskip
      by_cases hne : fp.fixed_box_sizes = []
      · exfalso
        unfold HoistClustersStep at h
        simp [hfp, hv, hs, hne] at h
      · rw [HoistClustersStep_eq m st b fp hfp hv hs hne] at h
        split at h
        · rename_i hc
          simp only [Option.some.injEq, Prod.mk.injEq] at h
          have hlt := hc.1
          refine Or.inr ⟨memory_requirement m fp b.dtype_bytes, hlt, ?_, ?_, ?_, ?_⟩
          · rw [← h.1]
            show (st.remaining_memory + SIZE_MOD - _) % SIZE_MOD = _
            have e : st.remaining_memory + SIZE_MOD - memory_requirement m fp b.dtype_bytes
                = (st.remaining_memory - memory_requirement m fp b.dtype_bytes) + SIZE_MOD := by
              omega
            rw [e, Nat.add_mod_right, Nat.mod_eq_of_lt]
            omega
          · rw [← h.1]
          · rw [← h.1]
          · rw [← h.1]
            show 0 < (st.remaining_memory + SIZE_MOD - _) % SIZE_MOD
            have e : st.remaining_memory + SIZE_MOD - memory_requirement m fp b.dtype_bytes
                = (st.remaining_memory - memory_requirement m fp b.dtype_bytes) + SIZE_MOD := by
              omega
            rw [e, Nat.add_mod_right, Nat.mod_eq_of_lt] <;> omega
        · simp only [Option.some.injEq, Prod.mk.injEq] at h
          exact Or.inl ⟨h.1.symm, h.2.symm⟩

theorem HoistClusters_log (m : SharedMemoryManager) (infos : List BufferDefInfo) :
    ∀ (st st1 : HoistState) (infos1 : List BufferDefInfo),
      st.remaining_memory < SIZE_MOD → HoistClusters m st infos = some (st1, infos1) →
      ∃ log, st1.deducted = st.deducted ++ log ∧
        st1.remaining_memory + log.sum = st.remaining_memory ∧
        (log ≠ [] → 0 < st1.remaining_memory) := by
  induction infos with
  | nil =>
    intro st st1 infos1 _ h
    simp only [HoistClusters, Option.some.injEq, Prod.mk.injEq] at h
    exact ⟨[], by simp [h.1], by simp [h.1], by simp⟩
  | cons b rest ih =>
    intro st st1 infos1 hR h
    simp only [HoistClusters] at h
    cases hstep : HoistClustersStep m st b with
    | none => simp [hstep] at h
    | some r =>
      obtain ⟨sa, ba⟩ := r
      simp only [hstep] at h
      cases hrest : HoistClusters m sa rest with
      | none => simp [hrest] at h
      | some r2 =>
        obtain ⟨sb, restb⟩ := r2
        simp only [hrest, Option.some.injEq, Prod.mk.injEq] at h
        have hsb : sb = st1 := h.1
        subst hsb
        rcases HoistClustersStep_log m st sa b ba hR hstep with ⟨e1, _⟩ | ⟨req, hlt, hrem, hded, _, hpos⟩
        · subst e1
          exact ih sa sb restb hR hrest
        · have hRa : sa.remaining_memory < SIZE_MOD := by omega
          obtain ⟨log, hl1, hl2, hl3⟩ := ih sa sb restb hRa hrest
          refine ⟨req :: log, ?_, ?_, ?_⟩
          · rw [hl1, hded]; simp
          · simp only [List.sum_cons]; omega
          · intro _
            by_cases hlog : log = []
            · subst hlog
              simp only [List.sum_nil] at hl2
              omega
            · exact hl3 hlog

theorem HoistClusters_cons (m : SharedMemoryManager) (st : HoistState) (b : BufferDefInfo)
    (rest : List BufferDefInfo) :
    HoistClusters m st (b :: rest) =
      match HoistClustersStep m st b with
      | none => none
      | some (st1, b1) =>
        match HoistClusters m st1 rest with
        | none => none
        | some (st2, rest1) => some (st2, b1 :: rest1) := rfl

theorem HoistClusters_append (m : SharedMemoryManager) (xs ys : List BufferDefInfo) :
    ∀ st : HoistState, HoistClusters m st (xs ++ ys) =
      match HoistClusters m st xs with
      | none => none
      | some (st1, xs1) => (HoistClusters m st1 ys).map (fun r => (r.1, xs1 ++ r.2)) := by
  induction xs with
  | nil =>
    intro st
    simp only [List.nil_append, HoistClusters]
    cases HoistClusters m st ys <;> simp
  | cons x xs ih =>
    intro st
    rw [List.cons_append, HoistClusters_cons, HoistClusters_cons]
    cases hstep : HoistClustersStep m st x with
    | none => rfl
    | some r =>
      obtain ⟨sa, xa⟩ := r
      simp only
      rw [ih sa]
      cases hxs : HoistClusters m sa xs with
      | none => rfl
      | some r2 =>
        obtain ⟨sb, xsb⟩ := r2
        simp only
        cases HoistClusters m sb ys <;> simp

/-- C3, as stated, fails at the entry budget `R0 = 0`: nothing is accepted, so
`remaining_memory` stays `0` (not `> 0`) and the sum of the accepted
requirements is `0`, which is not `< R0`. -/
theorem HoistClusters_zero_budget :
    HoistClusters plainManager (entryState 0) [freshInfo "A" (boxCluster [32, 32] true false) 4] =
        some (entryState 0, [freshInfo "A" (boxCluster [32, 32] true false) 4]) ∧
      ¬ (0 < (entryState 0).remaining_memory) ∧
      ¬ ((entryState 0).deducted.sum < (entryState 0).remaining_memory) := by
  decide

/-- C3 (amended). `HoistClusters` never wraps `remaining_memory`: for every list
of candidates and every entry budget `R0` (a `size_t`), after any initial
segment `pre` of the list the amounts deducted so far add up, with the budget
left, to exactly `R0`; each tensor accepted next has a `memory_requirement`
strictly smaller than the budget remaining at its turn and leaves
`remaining_memory > 0`; and whenever `R0 > 0`, `remaining_memory > 0` after
every step and the sum of the accepted requirements is `< R0`. -/
theorem HoistClusters_budget (m : SharedMemoryManager) (st st1 st2 : HoistState)
    (pre pre1 : List BufferDefInfo) (b b2 : BufferDefInfo)
    (hR : st.remaining_memory < SIZE_MOD)
    (h1 : HoistClusters m st pre = some (st1, pre1))
    (h2 : HoistClustersStep m st1 b = some (st2, b2)) :
    (∃ log, st1.deducted = st.deducted ++ log ∧
        st1.remaining_memory + log.sum = st.remaining_memory ∧
        (0 < st.remaining_memory → 0 < st1.remaining_memory ∧ log.sum < st.remaining_memory)) ∧
      ((st2 = st1 ∧ b2 = b) ∨
        ∃ req, req < st1.remaining_memory ∧
          st2.remaining_memory = st1.remaining_memory - req ∧
          st2.deducted = st1.deducted ++ [req] ∧ 0 < st2.remaining_memory) := by
  obtain ⟨log, hl1, hl2, hl3⟩ := HoistClusters_log m pre st st1 pre1 hR h1
  have hR1 : st1.remaining_memory < SIZE_MOD := by omega
  refine ⟨⟨log, hl1, hl2, ?_⟩, ?_⟩
  · intro hpos
    by_cases hlog : log = []
    · subst hlog
      simp only [List.sum_nil] at hl2 ⊢
      omega
    · have := hl3 hlog
      omega
  · rcases HoistClustersStep_log m st1 st2 b b2 hR1 h2 with h | ⟨req, ha, hb, hc, _, hd⟩
    · exact Or.inl h
    · exact Or.inr ⟨req, ha, hb, hc, hd⟩

theorem HoistClusters_budget_witness :
    (entryState 49152).remaining_memory < SIZE_MOD ∧
    HoistClusters plainManager (entryState 49152)
        [freshInfo "A" (boxCluster [32, 32] true false) 4,
         freshInfo "B" (boxCluster [128, 128] true false) 4] =
      some (HoistState.mk 44928 ["A"] [4224],
        [{ freshInfo "A" (boxCluster [32, 32] true false) 4 with
            sizes := [32, 32], find_buffer := true },
         freshInfo "B" (boxCluster [128, 128] true false) 4]) ∧
    HoistClustersStep plainManager (HoistState.mk 44928 ["A"] [4224])
        (freshInfo "D" (boxCluster [16, 16] true false) 4) =
      some (HoistState.mk 43840 ["A", "D"] [4224, 1088],
        { freshInfo "D" (boxCluster [16, 16] true false) 4 with
            sizes := [16, 16], find_buffer := true }) ∧
    ((∃ log, (HoistState.mk 44928 ["A"] [4224]).deducted = (entryState 49152).deducted ++ log ∧
        (HoistState.mk 44928 ["A"] [4224]).remaining_memory + log.sum =
          (entryState 49152).remaining_memory ∧
        (0 < (entryState 49152).remaining_memory →
          0 < (HoistState.mk 44928 ["A"] [4224]).remaining_memory ∧
            log.sum < (entryState 49152).remaining_memory)) ∧
      ((HoistState.mk 43840 ["A", "D"] [4224, 1088] = HoistState.mk 44928 ["A"] [4224] ∧
          { freshInfo "D" (boxCluster [16, 16] true false) 4 with
              sizes := [16, 16], find_buffer := true } =
            freshInfo "D" (boxCluster [16, 16] true false) 4) ∨
        ∃ req, req < (HoistState.mk 44928 ["A"] [4224]).remaining_memory ∧
          (HoistState.mk 43840 ["A", "D"] [4224, 1088]).remaining_memory =
            (HoistState.mk 44928 ["A"] [4224]).remaining_memory - req ∧
          (HoistState.mk 43840 ["A", "D"] [4224, 1088]).deducted =
            (HoistState.mk 44928 ["A"] [4224]).deducted ++ [req] ∧
          0 < (HoistState.mk 43840 ["A", "D"] [4224, 1088]).remaining_memory)) :=
  ⟨by decide, by decide, by decide,
    HoistClusters_budget plainManager (entryState 49152) (HoistState.mk 44928 ["A"] [4224])
      (HoistState.mk 43840 ["A", "D"] [4224, 1088])
      [freshInfo "A" (boxCluster [32, 32] true false) 4,
       freshInfo "B" (boxCluster [128, 128] true false) 4]
      [{ freshInfo "A" (boxCluster [32, 32] true false) 4 with
          sizes := [32, 32], find_buffer := true },
       freshInfo "B" (boxCluster [128, 128] true false) 4]
      (freshInfo "D" (boxCluster [16, 16] true false) 4)
      { freshInfo "D" (boxCluster [16, 16] true false) 4 with
          sizes := [16, 16], find_buffer := true }
      (by decide) (by decide) (by decide)⟩

/-- C7. In `HoistClusters`, a candidate `b` with a footprint whose
`memory_requirement` is not below the budget remaining after the initial segment
`pre` is left unpromoted without error: its iteration returns with
`remaining_memory`, the node and the entry (its `find_buffer` flag included)
unchanged, and the later candidates `post` are evaluated from exactly the state
reached after `pre`. -/
theorem HoistClusters_unfit_skipped (m : SharedMemoryManager) (st st1 : HoistState)
    (pre pre1 post : List BufferDefInfo) (b : BufferDefInfo) (fp : TensorFootprintCluster)
    (hpre : HoistClusters m st pre = some (st1, pre1))
    (hfp : b.footprint_at_node = some fp)
    (hne : fp.fixed_box_sizes ≠ [])
    (hfit : ¬ memory_requirement m fp b.dtype_bytes < st1.remaining_memory) :
    HoistClustersStep m st1 b = some (st1, b) ∧
      HoistClusters m st (pre ++ b :: post) =
        (HoistClusters m st1 post).map (fun r => (r.1, pre1 ++ b :: r.2)) := by
  have hstep : HoistClustersStep m st1 b = some (st1, b) := by
    by_cases hskip : fp.box_is_valid = false ∨ matmulSkips m b.tensor_id = true
    · exact HoistClustersStep_skip m st1 b (Or.inr ⟨fp, hfp, hskip⟩)
    · have hv : fp.box_is_valid = true := by
        cases hb : fp.box_is_valid
        · exact absurd (Or.inl hb) hskip
        · rfl
      have hs : matmulSkips m b.tensor_id = false := by
        cases hb : matmulSkips m b.tensor_id
        · rfl
        · exact absurd (Or.inr hb) hskip
      rw [HoistClustersStep_eq m st1 b fp hfp hv hs hne, if_neg]
      exact fun hc => hfit hc.1
  refine ⟨hstep, ?_⟩
  rw [HoistClusters_append, hpre]
  simp only
  rw [HoistClusters_cons, hstep]
  simp only
  cases HoistClusters m st1 post <;> simp

theorem HoistClusters_unfit_skipped_witness :
    HoistClusters plainManager (entryState 49152)
        [freshInfo "A" (boxCluster [32, 32] true false) 4] =
      some (HoistState.mk 44928 ["A"] [4224],
        [{ freshInfo "A" (boxCluster [32, 32] true false) 4 with
            sizes := [32, 32], find_buffer := true }]) ∧
    (freshInfo "B" (boxCluster [128, 128] true false) 4).footprint_at_node =
      some (boxCluster [128, 128] true false) ∧
    (boxCluster [128, 128] true false).fixed_box_sizes ≠ [] ∧
    ¬ memory_requirement plainManager (boxCluster [128, 128] true false)
        (freshInfo "B" (boxCluster [128, 128] true false) 4).dtype_bytes <
      (HoistState.mk 44928 ["A"] [4224]).remaining_memory ∧
    HoistClustersStep plainManager (HoistState.mk 44928 ["A"] [4224])
        (freshInfo "B" (boxCluster [128, 128] true false) 4) =
      some (HoistState.mk 44928 ["A"] [4224], freshInfo "B" (boxCluster [128, 128] true false) 4) ∧
    HoistClusters plainManager (entryState 49152)
        ([freshInfo "A" (boxCluster [32, 32] true false) 4] ++
          freshInfo "B" (boxCluster [128, 128] true false) 4 ::
            [freshInfo "D" (boxCluster [16, 16] true false) 4]) =
      (HoistClusters plainManager (HoistState.mk 44928 ["A"] [4224])
          [freshInfo "D" (boxCluster [16, 16] true false) 4]).map
        (fun r => (r.1,
          [{ freshInfo "A" (boxCluster [32, 32] true false) 4 with
              sizes := [32, 32], find_buffer := true }] ++
            freshInfo "B" (boxCluster [128, 128] true false) 4 :: r.2)) :=
  ⟨by decide, by decide, by decide, by decide,
    HoistClusters_unfit_skipped plainManager (entryState 49152) (HoistState.mk 44928 ["A"] [4224])
      [freshInfo "A" (boxCluster [32, 32] true false) 4]
      [{ freshInfo "A" (boxCluster [32, 32] true false) 4 with
          sizes := [32, 32], find_buffer := true }]
      [freshInfo "D" (boxCluster [16, 16] true false) 4]
      (freshInfo "B" (boxCluster [128, 128] true false) 4)
      (boxCluster [128, 128] true false)
      (by decide) (by decide) (by decide) (by decide)⟩

/-- C8. In `HoistClusters`, a candidate that has no reuse across the mapped
domain, whose accesses are coalesced (`CoalescingAccessWay` is false), that is
neither an atomic nor a reduce write tensor, in a kernel that is neither matmul
nor transpose, is never promoted, whatever budget remains: unless its footprint
is a valid scalar box (the fatal abort of line 561), its iteration returns with
`remaining_memory`, the node and the entry unchanged. -/
theorem HoistClusters_no_reuse_not_promoted (m : SharedMemoryManager) (st : HoistState)
    (b : BufferDefInfo) (fp : TensorFootprintCluster)
    (hfp : b.footprint_at_node = some fp)
    (hreuse : fp.reuse_tensor_cluster = false)
    (hcoal : fp.coalescing_access_way = false)
    (hatomic : InAtomicTensors m b.tensor_id = false)
    (hreduce : InReduceTensors m b.tensor_id = false)
    (hmatmul : m.enable_matmul = false)
    (htrans : m.has_transpose = false) :
    isPromoted m st b = false ∧
      HoistClustersStep m st b =
        (if fp.box_is_valid = true ∧ fp.fixed_box_sizes = [] then none else some (st, b)) := by
  have hs : matmulSkips m b.tensor_id = false := by simp [matmulSkips, hmatmul]
  have key : HoistClustersStep m st b =
      (if fp.box_is_valid = true ∧ fp.fixed_box_sizes = [] then none else some (st, b)) := by
    cases hv : fp.box_is_valid with
    | false =>
      rw [HoistClustersStep_skip m st b (Or.inr ⟨fp, hfp, Or.inl hv⟩)]
      simp
    | true =>
      by_cases hne : fp.fixed_box_sizes = []
      · unfold HoistClustersStep
        simp [hfp, hv, hs, hne]
      · rw [HoistClustersStep_eq m st b fp hfp hv hs hne]
        simp [hne, hreuse, hcoal, hatomic, hreduce, hmatmul, htrans]
  refine ⟨?_, key⟩
  unfold isPromoted
  rw [key]
  split <;> simp_all

theorem HoistClusters_no_reuse_not_promoted_witness :
    (freshInfo "A" (boxCluster [32, 32] false false) 4).footprint_at_node =
      some (boxCluster [32, 32] false false) ∧
    isPromoted plainManager (entryState 49152) (freshInfo "A" (boxCluster [32, 32] false false) 4) =
      false ∧
    HoistClustersStep plainManager (entryState 49152)
        (freshInfo "A" (boxCluster [32, 32] false false) 4) =
      (if (boxCluster [32, 32] false false).box_is_valid = true ∧
          (boxCluster [32, 32] false false).fixed_box_sizes = [] then none
        else some (entryState 49152, freshInfo "A" (boxCluster [32, 32] false false) 4)) :=
  ⟨by decide,
    HoistClusters_no_reuse_not_promoted plainManager (entryState 49152)
      (freshInfo "A" (boxCluster [32, 32] false false) 4) (boxCluster [32, 32] false false)
      (by decide) (by decide) (by decide) (by decide) (by decide) (by decide) (by decide)⟩

/-- C9, as stated, fails in both directions.  A tensor without reuse
(injective), with coalesced accesses, in a plain kernel, whose requirement fits,
satisfies the stated condition but is not promoted; the same tensor with reuse
(not injective) does not satisfy the stated condition but is promoted. -/
theorem promotion_decision_differs :
    specPromotes plainManager (entryState 49152) (boxCluster [32, 32] false false) 4 = true ∧
      isPromoted plainManager (entryState 49152)
        (freshInfo "A" (boxCluster [32, 32] false false) 4) = false ∧
      specPromotes plainManager (entryState 49152) (boxCluster [32, 32] true false) 4 = false ∧
      isPromoted plainManager (entryState 49152)
        (freshInfo "A" (boxCluster [32, 32] true false) 4) = true := by
  decide

/-- C9 (amended). The promotion decision of `HoistClusters`: a candidate with a
valid non-scalar footprint is promoted if and only if it is not skipped by the
matmul pass filter, its required memory is strictly below the remaining budget,
and it is an atomic or reduce write tensor, or its accesses are reused (not
injective) across the mapped domain, or `CoalescingAccessWay` reports a
non-coalesced access, or the kernel is a matmul or transpose kernel. -/
theorem isPromoted_iff (m : SharedMemoryManager) (st : HoistState) (b : BufferDefInfo)
    (fp : TensorFootprintCluster) (hfp : b.footprint_at_node = some fp)
    (hv : fp.box_is_valid = true) (hne : fp.fixed_box_sizes ≠ []) :
    isPromoted m st b = true ↔
      matmulSkips m b.tensor_id = false ∧
      memory_requirement m fp b.dtype_bytes < st.remaining_memory ∧
      (InAtomicTensors m b.tensor_id = true ∨ InReduceTensors m b.tensor_id = true ∨
        fp.reuse_tensor_cluster = true ∨ fp.coalescing_access_way = true ∨
        m.enable_matmul = true ∨ m.has_transpose = true) := by
  unfold isPromoted
  cases hs : matmulSkips m b.tensor_id with
  | true =>
    rw [HoistClustersStep_skip m st b (Or.inr ⟨fp, hfp, Or.inr hs⟩)]
    simp
  | false =>
    rw [HoistClustersStep_eq m st b fp hfp hv hs hne]
    by_cases hc : memory_requirement m fp b.dtype_bytes < st.remaining_memory ∧
        (InAtomicTensors m b.tensor_id = true ∨ InReduceTensors m b.tensor_id = true ∨
          fp.reuse_tensor_cluster = true ∨ fp.coalescing_access_way = true ∨
          m.enable_matmul = true ∨ m.has_transpose = true)
    · rw [if_pos hc]
      simp only [ne_eq, decide_eq_true_eq, true_and]
      constructor
      · intro _; exact hc
      · intro _; simp
    · rw [if_neg hc]
      simp only [ne_eq, not_true_eq_false, decide_False, Bool.false_eq_true, true_and, false_iff]
      exact hc

theorem isPromoted_iff_witness :
    (freshInfo "A" (boxCluster [32, 32] true false) 4).footprint_at_node =
      some (boxCluster [32, 32] true false) ∧
    (boxCluster [32, 32] true false).box_is_valid = true ∧
    (boxCluster [32, 32] true false).fixed_box_sizes ≠ [] ∧
    (isPromoted plainManager (entryState 49152)
        (freshInfo "A" (boxCluster [32, 32] true false) 4) = true ↔
      matmulSkips plainManager (freshInfo "A" (boxCluster [32, 32] true false) 4).tensor_id =
        false ∧
      memory_requirement plainManager (boxCluster [32, 32] true false)
          (freshInfo "A" (boxCluster [32, 32] true false) 4).dtype_bytes <
        (entryState 49152).remaining_memory ∧
      (InAtomicTensors plainManager (freshInfo "A" (boxCluster [32, 32] true false) 4).tensor_id =
          true ∨
        InReduceTensors plainManager (freshInfo "A" (boxCluster [32, 32] true false) 4).tensor_id =
          true ∨
        (boxCluster [32, 32] true false).reuse_tensor_cluster = true ∨
        (boxCluster [32, 32] true false).coalescing_access_way = true ∨
        plainManager.enable_matmul = true ∨ plainManager.has_transpose = true)) :=
  ⟨by decide, by decide, by decide,
    isPromoted_iff plainManager (entryState 49152)
      (freshInfo "A" (boxCluster [32, 32] true false) 4) (boxCluster [32, 32] true false)
      (by decide) (by decide) (by decide)⟩

/-! ### Budget over one run -/

theorem OptimizeBankConflict_concat (bank_conflict_ : Bool) (l : List Nat) (x : Nat) :
    OptimizeBankConflict bank_conflict_ (l ++ [x]) =
      l ++ [if x % 2 = 0 then
              (if bank_conflict_ = true ∧ x < 32 then 33 else (x + 1) % SIZE_MOD)
            else x] := by
  unfold OptimizeBankConflict
  simp only [List.getLast?_concat, List.dropLast_concat]
  by_cases h : x % 2 = 0
  · by_cases h2 : bank_conflict_ = true ∧ x < 32
    · simp [h, h2]
    · simp only [h, ↓reduceIte, h2]
  · simp [h]

theorem succ_mod_size_odd (x : Nat) (h : x % 2 = 0) : ((x + 1) % SIZE_MOD) % 2 = 1 := by
  have hd : 2 ∣ SIZE_MOD := ⟨2 ^ 63, by norm_num [SIZE_MOD]⟩
  rw [Nat.mod_mod_of_dvd _ hd]
  omega

/-- C5. `OptimizeBankConflict` is idempotent: for every non-empty size vector
and either value of the `bank_conflict_` flag, applying it twice gives the same
vector as applying it once. -/
theorem OptimizeBankConflict_idempotent (bank_conflict_ : Bool) (sizes : List Nat)
    (hne : sizes ≠ []) :
    OptimizeBankConflict bank_conflict_ (OptimizeBankConflict bank_conflict_ sizes) =
      OptimizeBankConflict bank_conflict_ sizes := by
  obtain ⟨l, x, rfl⟩ : ∃ l x, sizes = l ++ [x] := by
    rcases List.eq_nil_or_concat sizes with h | ⟨l, x, h⟩
    · exact absurd h hne
    · exact ⟨l, x, by simpa using h⟩
  rw [OptimizeBankConflict_concat, OptimizeBankConflict_concat]
  congr 2
  by_cases h : x % 2 = 0
  · by_cases h2 : bank_conflict_ = true ∧ x < 32
    · simp [h, h2]
    · have hodd := succ_mod_size_odd x h
      simp only [h, ↓reduceIte, h2]
      rw [if_neg (by omega)]
  · simp [h]

theorem OptimizeBankConflict_idempotent_witness :
    ([4, 8] : List Nat) ≠ [] ∧
    OptimizeBankConflict true (OptimizeBankConflict true [4, 8]) = OptimizeBankConflict true [4, 8] :=
  ⟨by decide, OptimizeBankConflict_idempotent true [4, 8] (by decide)⟩

/-! ### Non-unit stride -/

/-- C6 fails on the code.  For the node `for (c = 4; c <= 8; c += 2)` the loop
emitted by `EmitFor` has extent `8 / 2 + 1 = 5` and visits `4, 6, 8, 10, 12`,
where the node visits `4, 6, 8`; for `for (c = 0; c < 5; c += 2)` the emitted
loop has extent `5 / 2 = 2` and visits `0, 2`, where the node visits `0, 2, 4`.
The unit-stride path of the same function subtracts the initial value from the
bound and visits exactly the values of the node. -/
theorem EmitFor_stride_visits_differ :
    EmitFor_visits (IslAstFor.mk "c" 4 IslCondOp.le 8 2) = some [4, 6, 8, 10, 12] ∧
      (IslAstFor.mk "c" 4 IslCondOp.le 8 2).visits = [4, 6, 8] ∧
      EmitFor_visits (IslAstFor.mk "c" 0 IslCondOp.lt 5 2) = some [0, 2] ∧
      (IslAstFor.mk "c" 0 IslCondOp.lt 5 2).visits = [0, 2, 4] ∧
      EmitFor_visits (IslAstFor.mk "c" 4 IslCondOp.le 8 1) = some [4, 5, 6, 7, 8] ∧
      (IslAstFor.mk "c" 4 IslCondOp.le 8 1).visits = [4, 5, 6, 7, 8] := by
  decide

/-! ### Candidate list -/

theorem mem_setInsert (x y : String) (s : List String) :
    y ∈ setInsert x s ↔ y = x ∨ y ∈ s := by
  induction s with
  | nil => simp [setInsert]
  | cons z zs ih =>
    by_cases h1 : strLt x z = true
    · simp [setInsert, h1]
    · by_cases h2 : x = z
      · subst h2
        simp [setInsert, h1]
      · have e : setInsert x (z :: zs) = z :: setInsert x zs := by
          simp [setInsert, h1, h2]
        rw [e]
        simp only [List.mem_cons, ih]
        tauto

theorem mem_foldl_setInsert (l : List String) :
    ∀ (s : List String) (y : String),
      y ∈ l.foldl (fun acc item => setInsert item acc) s ↔ y ∈ l ∨ y ∈ s := by
  induction l with
  | nil => intro s y; simp
  | cons a l ih =>
    intro s y
    simp only [List.foldl_cons, ih, mem_setInsert, List.mem_cons]
    tauto

theorem mem_collectNames (stmt_map : List (String × List String)) (y : String) :
    y ∈ collectNames stmt_map ↔ ∃ item ∈ stmt_map, y ∈ item.2 := by
  unfold collectNames
  have key : ∀ (l : List (String × List String)) (s : List String),
      y ∈ l.foldl (fun acc item => item.2.foldl (fun acc item_id => setInsert item_id acc) acc) s ↔
        (∃ item ∈ l, y ∈ item.2) ∨ y ∈ s := by
    intro l
    induction l with
    | nil => intro s; simp
    | cons a l ih =>
      intro s
      simp only [List.foldl_cons, ih, mem_foldl_setInsert, List.mem_cons, exists_eq_or_imp]
      constructor
      · rintro (h | h | h)
        exacts [Or.inl (Or.inr h), Or.inl (Or.inl h), Or.inr h]
      · rintro ((h | h) | h)
        exacts [Or.inr (Or.inl h), Or.inl h, Or.inr (Or.inr h)]
  simpa using key stmt_map []

theorem mem_AnalysisReduceTensors (m : SharedMemoryManager) (y : String)
    (h : m.enable_akg_reduce_lib = true) :
    y ∈ AnalysisReduceTensors m ↔ y ∈ m.atomic_tensors ∨ y ∈ m.reduce_tensors := by
  unfold AnalysisReduceTensors
  simp only [h, Bool.true_eq_false, ↓reduceIte, mem_foldl_setInsert, List.not_mem_nil, or_false]
  tauto

/-- C10, as stated, fails when library reduction is enabled: the set of the
atomic and reduce write tensors replaces the read-only set, so the read-only
tensor `in` of a reduction writing `out` is a candidate by the stated union but
is not in the set the code builds. -/
theorem CreateClusterList_drops_read_only :
    specCandidate { plainManager with enable_akg_reduce_lib := true, reduce_tensors := ["out"] }
        [("S_0", ["in", "out"])] [("S_0", ["out"])] "in" ∧
      CreateClusterList_id_sets
          { plainManager with enable_akg_reduce_lib := true, reduce_tensors := ["out"] }
          [("S_0", ["in", "out"])] [("S_0", ["out"])] = ["out"] ∧
      "in" ∉ CreateClusterList_id_sets
          { plainManager with enable_akg_reduce_lib := true, reduce_tensors := ["out"] }
          [("S_0", ["in", "out"])] [("S_0", ["out"])] :=
  ⟨Or.inl ⟨by decide, by decide⟩, by decide, by decide⟩

/-- C10 (amended). `CreateClusterList` builds the candidate tensor set as the
union of: the read tensors minus the written tensors when library reduction is
disabled, or the atomic and reduce write tensors in their place when library
reduction is enabled; the user-configured shared tensors; and the two matrix
operands A and B when matmul mode is enabled. -/
theorem mem_CreateClusterList_id_sets (m : SharedMemoryManager)
    (read_map write_map : List (String × List String)) (x : String) :
    x ∈ CreateClusterList_id_sets m read_map write_map ↔
      (m.enable_akg_reduce_lib = false ∧
          x ∈ collectNames read_map ∧ x ∉ collectNames write_map) ∨
        (m.enable_akg_reduce_lib = true ∧ (x ∈ m.atomic_tensors ∨ x ∈ m.reduce_tensors)) ∨
        x ∈ m.configed_tensors_ ∨
        (m.enable_matmul = true ∧ (x = m.matrix_a ∨ x = m.matrix_b)) := by
  unfold CreateClusterList_id_sets
  cases hr : m.enable_akg_reduce_lib <;> cases hm : m.enable_matmul
  · simp only [Bool.false_eq_true, ↓reduceIte, mem_foldl_setInsert, List.mem_filter]
    simp
    tauto
  · simp only [Bool.false_eq_true, ↓reduceIte, mem_setInsert, mem_foldl_setInsert,
      List.mem_filter]
    simp
    tauto
  · simp only [↓reduceIte, Bool.false_eq_true, mem_foldl_setInsert,
      mem_AnalysisReduceTensors m x hr]
    simp
    tauto
  · simp only [↓reduceIte, mem_setInsert, mem_foldl_setInsert,
      mem_AnalysisReduceTensors m x hr]
    simp
    tauto

/-- The entries `CreateClusterList` appends to `buffer_def_infos_` are, in the
order of the set, the members of `id_sets` that the matmul pass filter keeps and
for which a footprint cluster exists. -/
theorem CreateClusterList_tensor_ids (m : SharedMemoryManager)
    (read_map write_map : List (String × List String))
    (hoist_footprint : String → Option TensorFootprintCluster) (bytes : String → Nat)
    (buffer_def_infos_ : List BufferDefInfo) :
    (CreateClusterList m read_map write_map hoist_footprint bytes buffer_def_infos_).map
        (fun b => b.tensor_id) =
      buffer_def_infos_.map (fun b => b.tensor_id) ++
        (CreateClusterList_id_sets m read_map write_map).filter
          (fun x => !matmulSkips m x && (hoist_footprint x).isSome) := by
  unfold CreateClusterList
  generalize CreateClusterList_id_sets m read_map write_map = l
  induction l generalizing buffer_def_infos_ with
  | nil => simp
  | cons x l ih =>
    simp only [List.foldl_cons]
    rw [ih]
    cases hs : matmulSkips m x
    · cases hf : hoist_footprint x <;> simp [hs, hf, List.filter_cons]
    · simp [hs, List.filter_cons]

/-! ### Promotion depth -/

theorem toInt32_of_small (n : Nat) (h : n < 2 ^ 31) : toInt32 (n : Int) = (n : Int) := by
  unfold toInt32
  have h' : (n : Int) < 2147483648 := by
    have : n < 2147483648 := by simpa using h
    exact_mod_cast this
  norm_num
  omega

/-- Whatever the block config, `UpdateDepth` sets `depth_` to the member count of
the outer band: after the `std::min<int>` the test `block_depth >
outer_band_depth` cannot succeed. -/
theorem UpdateDepth_eq_outer (depth_ : Int) (m b : Nat) (under_thread_marker : Nat → Bool)
    (hm : m < 2 ^ 31) (hb : b + 1 < 2 ^ 31) :
    UpdateDepth depth_ (some m) b under_thread_marker = (m : Int) := by
  have hb' : b + 1 < SIZE_MOD := by
    have : (2 : Nat) ^ 31 < SIZE_MOD := by norm_num [SIZE_MOD]
    omega
  unfold UpdateDepth
  simp only [Nat.mod_eq_of_lt hb', toInt32_of_small m hm, toInt32_of_small (b + 1) hb]
  have hmin : toSizeT (min ((b + 1 : Nat) : Int) (m : Int)) = min (b + 1) m := by
    unfold toSizeT
    have e : min ((b + 1 : Nat) : Int) (m : Int) = ((min (b + 1) m : Nat) : Int) := by
      simp
    rw [e]
    have hlt : ((min (b + 1) m : Nat) : Int) < 2 ^ 64 := by
      have : min (b + 1) m < 2 ^ 64 := by
        have : (2 : Nat) ^ 31 < 2 ^ 64 := by norm_num
        omega
      exact_mod_cast this
    rw [Int.emod_eq_of_lt (by positivity) hlt]
    exact Int.toNat_natCast _
  rw [hmin, if_neg]
  intro h
  omega

/-- C11, as stated, fails.  With no user depth, block-config bound `b = 1` and an
outer band of `m = 4` members, `Run` uses `depth_ = 4`, where the stated default
is `min (b + 1) m = 2`: at this input `b + 1 > m` is false and the code stores
the member count `m` through its branch `else depth_ = outer_band_depth`. -/
theorem Run_depth_ignores_block_bound :
    Run_depth (-1) (some 4) 1 (fun _ => false) = some 4 ∧
      Run_depth (-1) (some 4) 1 (fun _ => false) ≠ some ((min (1 + 1) 4 : Nat) : Int) := by
  decide

/-- C11 (amended).  The promotion depth used by `Run`, for an outer band of `m`
members and a block config of bound `b` (both in `int` range): when no user depth
is given (`GetSharedDepth() < 0`), `depth_ = m`, the member count of the outer
band, whatever `b` and the thread markers are; when a user depth `d >= 0` is
given, `depth_ = d`.  In both cases the check `depth_ >= 0` passes. -/
theorem Run_depth_spec (shared_depth : Int) (m b : Nat) (under_thread_marker : Nat → Bool)
    (hm : m < 2 ^ 31) (hb : b + 1 < 2 ^ 31) :
    (shared_depth < 0 → Run_depth shared_depth (some m) b under_thread_marker = some (m : Int)) ∧
      (shared_depth ≥ 0 →
        Run_depth shared_depth (some m) b under_thread_marker = some shared_depth) := by
  unfold Run_depth
  rw [UpdateDepth_eq_outer 1 m b under_thread_marker hm hb]
  constructor
  · intro h
    have h1 : ¬ shared_depth ≥ 0 := by omega
    have h2 : (m : Int) ≥ 0 := by positivity
    simp only [if_neg h1, if_pos h2]
  · intro h
    simp only [if_pos h]

theorem Run_depth_spec_witness :
    (4 : Nat) < 2 ^ 31 ∧ (1 : Nat) + 1 < 2 ^ 31 ∧
      ((-1 : Int) < 0 → Run_depth (-1) (some 4) 1 (fun _ => false) = some ((4 : Nat) : Int)) ∧
      ((-1 : Int) ≥ 0 → Run_depth (-1) (some 4) 1 (fun _ => false) = some (-1)) :=
  ⟨by decide, by decide, Run_depth_spec (-1) 4 1 (fun _ => false) (by decide) (by decide)⟩

/-! ### Required memory -/

/-- C12 fails on the code.  For padded box extents `4096 x 1048577` and 4-byte
elements the exact requirement is `4096 * 1048577 * 4 = 17179885568` bytes, which
fits in `size_t`; the accumulation runs in an `int` (the type of the initial
value `1`), keeps `4096 * 1048577` modulo `2 ^ 32`, that is `4096`, and the code
obtains `16384` bytes, so the tensor is accepted under a 49152-byte budget. -/
theorem memory_requirement_truncated :
    memory_requirement plainManager (boxCluster [4096, 1048577] true false) 4 = 16384 ∧
      specMemoryRequirement plainManager (boxCluster [4096, 1048577] true false) 4 =
        17179885568 ∧
      17179885568 < SIZE_MOD ∧
      isPromoted plainManager (entryState 49152)
        (freshInfo "A" (boxCluster [4096, 1048577] true false) 4) = true := by
  decide

/-! ### Bank-conflict padding rule -/

/-- C13. The padding rule of `OptimizeBankConflict`: for every non-empty size
vector (of `size_t` values) the length is preserved and only the last extent can
change; an odd last extent is unchanged; an even last extent `L` becomes `33`
when `bank_conflict_` is set and `L < 32`, and `L + 1` otherwise. -/
theorem OptimizeBankConflict_rule (bank_conflict_ : Bool) (l : List Nat) (L : Nat)
    (hL : L < SIZE_MOD) :
    OptimizeBankConflict bank_conflict_ (l ++ [L]) =
        l ++ [if L % 2 = 1 then L else if bank_conflict_ = true ∧ L < 32 then 33 else L + 1] ∧
      (OptimizeBankConflict bank_conflict_ (l ++ [L])).length = (l ++ [L]).length ∧
      (OptimizeBankConflict bank_conflict_ (l ++ [L])).dropLast = (l ++ [L]).dropLast := by
  have key : OptimizeBankConflict bank_conflict_ (l ++ [L]) =
      l ++ [if L % 2 = 1 then L else if bank_conflict_ = true ∧ L < 32 then 33 else L + 1] := by
    rw [OptimizeBankConflict_concat]
    congr 2
    by_cases h : L % 2 = 0
    · have h1 : ¬ L % 2 = 1 := by omega
      have hlt : L + 1 < SIZE_MOD := by
        have hd : SIZE_MOD % 2 = 0 := by norm_num [SIZE_MOD]
        omega
      simp only [h, ↓reduceIte, Nat.mod_eq_of_lt hlt]
      simp
    · have h1 : L % 2 = 1 := by omega
      simp [h1]
  refine ⟨key, ?_, ?_⟩
  · rw [key]; simp
  · rw [key]; simp [List.dropLast_concat]

theorem OptimizeBankConflict_rule_witness :
    (8 : Nat) < SIZE_MOD ∧
    (OptimizeBankConflict true ([4] ++ [8]) =
        [4] ++ [if 8 % 2 = 1 then 8 else if true = true ∧ 8 < 32 then 33 else 8 + 1] ∧
      (OptimizeBankConflict true ([4] ++ [8])).length = ([4] ++ [8]).length ∧
      (OptimizeBankConflict true ([4] ++ [8])).dropLast = ([4] ++ [8] : List Nat).dropLast) :=
  ⟨by decide, OptimizeBankConflict_rule true [4] 8 (by decide)⟩

/-! ### Atomic-add check -/

theorem NeedAtomicAdd_loop_spec (block_cfg : MappingCfg) :
    ∀ (n i : Nat) (reads : List Nat), block_cfg.bound - i = n →
      ((NeedAtomicAdd_loop block_cfg i reads).1 = true ↔
        ∃ k, k + i < block_cfg.bound ∧ block_cfg.extent k > 1) ∧
      ∃ more, (NeedAtomicAdd_loop block_cfg i reads).2 = reads ++ more ∧
        ∀ idx ∈ more, idx < block_cfg.bound := by
  intro n
  induction n with
  | zero =>
    intro i reads hn
    have hi : ¬ i < block_cfg.bound := by omega
    rw [NeedAtomicAdd_loop]
    simp only [hi, ↓reduceIte, Bool.false_eq_true, false_iff, not_exists, not_and]
    refine ⟨fun k hk => by omega, [], by simp, by simp⟩
  | succ n ih =>
    intro i reads hn
    have hi : i < block_cfg.bound := by omega
    rw [NeedAtomicAdd_loop]
    simp only [hi, ↓reduceIte]
    by_cases hext : block_cfg.extent (block_cfg.bound - i - 1) > 1
    · simp only [hext, ↓reduceIte, true_iff]
      refine ⟨⟨block_cfg.bound - i - 1, by omega, hext⟩, [block_cfg.bound - i - 1], rfl, ?_⟩
      intro idx hidx
      simp only [List.mem_singleton] at hidx
      omega
    · simp only [hext, ↓reduceIte]
      obtain ⟨h1, more, h2, h3⟩ := ih (i + 1) (reads ++ [block_cfg.bound - i - 1]) (by omega)
      constructor
      · rw [h1]
        constructor
        · rintro ⟨k, hk, hx⟩
          exact ⟨k, by omega, hx⟩
        · rintro ⟨k, hk, hx⟩
          have hne : k ≠ block_cfg.bound - i - 1 := by
            intro e
            rw [e] at hx
            exact hext hx
          exact ⟨k, by omega, hx⟩
      · refine ⟨(block_cfg.bound - i - 1) :: more, ?_, ?_⟩
        · rw [h2]; simp
        · intro idx hidx
          simp only [List.mem_cons] at hidx
          rcases hidx with e | hm
          · omega
          · exact h3 idx hm

/-- C14. `NeedAtomicAdd(band, n_block_map)` returns true exactly when the reduce
library is enabled, `s ≤ n_block_map`, and some block-config entry at a position
`k` with `0 ≤ k ≤ bound - 1 - s` (that is, `k + s < bound`) has extent `> 1`,
where `s` is the number of leading coincident band members, taken as `0` for a
single-member all-reduce band in the X direction; it returns false otherwise.
Every position it passes to `GetAt` lies in `[0, bound)`, and its loop
terminates (the function is total). -/
theorem NeedAtomicAdd_spec (enable_akg_reduce_lib : Bool) (block_cfg : MappingCfg)
    (count_consecutive_coincident band_n_member : Nat) (reduce_direction_is_x : Bool)
    (n_block_map : Nat) :
    ((NeedAtomicAdd enable_akg_reduce_lib block_cfg count_consecutive_coincident band_n_member
        reduce_direction_is_x n_block_map).1 = true ↔
      enable_akg_reduce_lib = true ∧
      nonCoinStart count_consecutive_coincident band_n_member reduce_direction_is_x ≤
        n_block_map ∧
      ∃ k, k + nonCoinStart count_consecutive_coincident band_n_member reduce_direction_is_x <
          block_cfg.bound ∧ block_cfg.extent k > 1) ∧
    ∀ idx ∈ (NeedAtomicAdd enable_akg_reduce_lib block_cfg count_consecutive_coincident
        band_n_member reduce_direction_is_x n_block_map).2, idx < block_cfg.bound := by
  have hs : (if (decide (band_n_member = 1) && reduce_direction_is_x &&
        decide (count_consecutive_coincident = 1)) = true then 0
      else count_consecutive_coincident) =
      nonCoinStart count_consecutive_coincident band_n_member reduce_direction_is_x := by
    unfold nonCoinStart
    simp only [Bool.and_eq_true, decide_eq_true_eq, and_assoc]
  unfold NeedAtomicAdd
  cases enable_akg_reduce_lib with
  | false => simp
  | true =>
    simp only [Bool.true_eq_false, ↓reduceIte, hs, true_and]
    by_cases hlt : n_block_map <
        nonCoinStart count_consecutive_coincident band_n_member reduce_direction_is_x
    · simp only [hlt, ↓reduceIte, Bool.false_eq_true, false_iff, not_and, List.not_mem_nil,
        false_implies, implies_true, and_true]
      intro h
      omega
    · simp only [hlt, ↓reduceIte]
      obtain ⟨h1, more, h2, h3⟩ := NeedAtomicAdd_loop_spec block_cfg _
        (nonCoinStart count_consecutive_coincident band_n_member reduce_direction_is_x) [] rfl
      refine ⟨?_, ?_⟩
      · rw [h1]
        constructor
        · intro h; exact ⟨by omega, h⟩
        · intro h; exact h.2
      · intro idx hidx
        rw [h2] at hidx
        simp only [List.nil_append] at hidx
        exact h3 idx hidx

/-! ### Flag normalisation -/

theorem Transform_reduce_loop_fst (AKG_REDUCE_UNSUPPORTED : String)
    (AkgSupportedReduceOp : List String) (types : List String) :
    ∀ has_supported_op : Bool,
      (Transform_reduce_loop AKG_REDUCE_UNSUPPORTED AkgSupportedReduceOp types
          has_supported_op).1 = true ↔ AKG_REDUCE_UNSUPPORTED ∉ types := by
  induction types with
  | nil => intro h; simp [Transform_reduce_loop]
  | cons t rest ih =>
    intro h
    unfold Transform_reduce_loop
    by_cases ht : t = AKG_REDUCE_UNSUPPORTED
    · simp [ht]
    · simp only [ht, ↓reduceIte, ih, List.mem_cons, not_or]
      constructor
      · intro hr; exact ⟨fun e => ht e.symm, hr⟩
      · intro hr; exact hr.2

/-- C15. `Scop::Transform` on the CUDA target: the reduce library is enabled when
the GPU passes run if and only if it was requested, the kernel has at least one
reduction statement, matmul was not requested, and no reduction statement has
the unsupported operator kind; with an unsupported kind the library is disabled
and the transformation goes on (the function is total, it does not abort). -/
theorem Transform_reduce_lib_enabled_iff (AKG_REDUCE_UNSUPPORTED : String)
    (AkgSupportedReduceOp : List String) (reduce_op_types : List String) (cfg : GpuFlags) :
    ((Transform_cuda_flags AKG_REDUCE_UNSUPPORTED AkgSupportedReduceOp reduce_op_types
        cfg).enable_akg_reduce_lib = true ↔
      cfg.enable_akg_reduce_lib = true ∧ reduce_op_types ≠ [] ∧ cfg.enable_matmul = false ∧
        AKG_REDUCE_UNSUPPORTED ∉ reduce_op_types) ∧
    (AKG_REDUCE_UNSUPPORTED ∈ reduce_op_types →
      (Transform_cuda_flags AKG_REDUCE_UNSUPPORTED AkgSupportedReduceOp reduce_op_types
        cfg).enable_akg_reduce_lib = false) := by
  have key : (Transform_cuda_flags AKG_REDUCE_UNSUPPORTED AkgSupportedReduceOp reduce_op_types
        cfg).enable_akg_reduce_lib = true ↔
      cfg.enable_akg_reduce_lib = true ∧ reduce_op_types ≠ [] ∧ cfg.enable_matmul = false ∧
        AKG_REDUCE_UNSUPPORTED ∉ reduce_op_types := by
    unfold Transform_cuda_flags
    cases hr : cfg.enable_akg_reduce_lib <;> cases hm : cfg.enable_matmul <;>
      cases he : reduce_op_types.isEmpty <;>
      simp [Transform_reduce_loop_fst, List.isEmpty_iff] at he ⊢ <;> simp [he]
  refine ⟨key, ?_⟩
  intro hmem
  cases h : (Transform_cuda_flags AKG_REDUCE_UNSUPPORTED AkgSupportedReduceOp reduce_op_types
      cfg).enable_akg_reduce_lib with
  | false => rfl
  | true => exact absurd hmem (key.mp h).2.2.2

/-! ### Block nodes -/

theorem blockOf_concat {σ τ : Type} (l : List (Stmt σ τ)) :
    ∀ (a y x : Stmt σ τ), blockOf a (l ++ [y, x]) = blockOf a (l ++ [Stmt.block y x]) := by
  induction l with
  | nil => intro a y x; rfl
  | cons b l ih =>
    intro a y x
    show Stmt.block a (blockOf b (l ++ [y, x])) = Stmt.block a (blockOf b (l ++ [Stmt.block y x]))
    rw [ih]

theorem EmitBlock_merge_spec {σ τ : Type} :
    ∀ (n : Nat) (f0 : Stmt σ τ) (fr : List (Stmt σ τ)) (x : Stmt σ τ) (back : List (Stmt σ τ)),
      fr.length = n →
      ∃ mid, EmitBlock_merge (f0 :: fr ++ x :: back) n = some (blockOf f0 (fr ++ [x]) :: mid) ∧
        mid.length = fr.length + 1 + back.length := by
  intro n
  induction n with
  | zero =>
    intro f0 fr x back hlen
    have hfr : fr = [] := List.length_eq_zero.mp hlen
    subst hfr
    exact ⟨x :: back, by simp [EmitBlock_merge, blockOf], by simp; omega⟩
  | succ n ih =>
    intro f0 fr x back hlen
    obtain ⟨fr', y, rfl⟩ : ∃ fr' y, fr = fr' ++ [y] := by
      rcases List.eq_nil_or_concat fr with h | ⟨l, y, h⟩
      · subst h; simp at hlen
      · exact ⟨l, y, by simpa using h⟩
    have hlen' : fr'.length = n := by simpa using hlen
    have e1 : (f0 :: (fr' ++ [y]) ++ x :: back)[n + 1]? = some y := by
      have : f0 :: (fr' ++ [y]) ++ x :: back = (f0 :: fr') ++ (y :: x :: back) := by simp
      rw [this, List.getElem?_append_right (by simp [hlen'])]
      simp [hlen']
    have e2 : (f0 :: (fr' ++ [y]) ++ x :: back)[n + 2]? = some x := by
      have : f0 :: (fr' ++ [y]) ++ x :: back = (f0 :: fr') ++ (y :: x :: back) := by simp
      rw [this, List.getElem?_append_right (by simp [hlen'])]
      simp [hlen']
    have e3 : (f0 :: (fr' ++ [y]) ++ x :: back).set (n + 1) (Stmt.block y x) =
        f0 :: fr' ++ Stmt.block y x :: (x :: back) := by
      have : f0 :: (fr' ++ [y]) ++ x :: back = (f0 :: fr') ++ (y :: x :: back) := by simp
      rw [this, List.set_append_right _ _ (by simp [hlen'])]
      simp [hlen']
    obtain ⟨mid, h1, h2⟩ := ih f0 fr' (Stmt.block y x) (x :: back) hlen'
    refine ⟨mid, ?_, ?_⟩
    · rw [EmitBlock_merge]
      simp only [e1, e2, e3, h1]
      rw [List.append_assoc, List.singleton_append, blockOf_concat]
    · rw [h2]; simp; omega

theorem EmitBlock_loop_cons {σ τ β ι : Type} (H : RealizeEnv σ τ β ι) (child : BlockChild σ ι)
    (later : List (BlockChild σ ι)) (info : ι) :
    EmitBlock_loop H (child :: later) info =
      match EmitBlock_loop H later info with
      | none => none
      | some (stmts, last_num, info) =>
        match child with
        | BlockChild.realizeMarker new_stmt_id =>
          let stmt_num : Int := (stmts.length : Int)
          if stmt_num = 0 then none
          else
            let merged : Option (List (Stmt σ τ) × ι) :=
              if stmt_num = 1 then EmitBlock_realize_front H stmts new_stmt_id info
              else if stmt_num - last_num = 1 then
                EmitBlock_realize_front H stmts new_stmt_id info
              else
                let start : Int := stmt_num - 2 - last_num
                let stmts1 : Option (List (Stmt σ τ)) :=
                  if start ≥ 0 then EmitBlock_merge stmts start.toNat else some stmts
                match stmts1 with
                | none => none
                | some stmts1 => EmitBlock_realize_front H stmts1 new_stmt_id info
            match merged with
            | none => none
            | some (stmts, info) => some (stmts, stmt_num - 1, info)
        | BlockChild.node body after =>
          let info := after info
          match body with
          | none => some (stmts, last_num, info)
          | some body => some (Stmt.emitted body :: stmts, last_num, info) := rfl

/-- The merge loop started at `stmts.size() - 2 - last_num` on a vector whose
live front part is `a :: b :: tl` leaves the block of the whole live part in
front and keeps the size of the vector. -/
theorem EmitBlock_merge_pending {σ τ : Type} (a b : Stmt σ τ) (tl g : List (Stmt σ τ)) :
    ∃ mid, EmitBlock_merge (a :: b :: tl ++ g) tl.length = some (blockOf a (b :: tl) :: mid) ∧
      mid.length = tl.length + 1 + g.length := by
  obtain ⟨fr, x, hfx⟩ : ∃ fr x, b :: tl = fr ++ [x] := by
    rcases List.eq_nil_or_concat (b :: tl) with h | ⟨l, y, h⟩
    · simp at h
    · exact ⟨l, y, by simpa using h⟩
  have hlen : fr.length = tl.length := by
    have := congrArg List.length hfx
    simp at this
    omega
  obtain ⟨mid, h1, h2⟩ := EmitBlock_merge_spec tl.length a fr x g hlen
  refine ⟨mid, ?_, by omega⟩
  have e : a :: b :: tl ++ g = a :: fr ++ x :: g := by
    have : a :: b :: tl ++ g = a :: ((b :: tl) ++ g) := rfl
    rw [this, hfx]
    simp
  rw [e, h1, hfx]

theorem EmitBlock_pending_cons {σ τ β ι : Type} (H : RealizeEnv σ τ β ι) (child : BlockChild σ ι)
    (later : List (BlockChild σ ι)) (info : ι) :
    EmitBlock_pending H (child :: later) info =
      match EmitBlock_pending H later info with
      | none => none
      | some (pending, info) =>
        match child with
        | BlockChild.node none after => some (pending, after info)
        | BlockChild.node (some s) after => some (Stmt.emitted s :: pending, after info)
        | BlockChild.realizeMarker var =>
          match pending with
          | [] => none
          | a :: rest =>
            match InsertRealize H (blockOf a rest) var info with
            | none => none
            | some (s, info) => some ([s], info) := rfl

theorem EmitBlock_loop_inv {σ τ β ι : Type} (H : RealizeEnv σ τ β ι) (cs : List (BlockChild σ ι))
    (info : ι) :
    match EmitBlock_pending H cs info with
    | none => EmitBlock_loop H cs info = none
    | some (p, info1) =>
      ∃ g, EmitBlock_loop H cs info = some (p ++ g, (g.length : Int), info1) ∧
        (p = [] → g = []) := by
  induction cs with
  | nil => exact ⟨[], rfl, fun _ => rfl⟩
  | cons c later ih =>
    rw [EmitBlock_loop_cons, EmitBlock_pending_cons]
    cases hp : EmitBlock_pending H later info with
    | none =>
      rw [hp] at ih
      simp only at ih ⊢
      rw [ih]
    | some pi =>
      obtain ⟨p, info1⟩ := pi
      rw [hp] at ih
      obtain ⟨g, hloop, hnil⟩ := ih
      rw [hloop]
      cases c with
      | node body after =>
        cases body with
        | none => exact ⟨g, rfl, hnil⟩
        | some s => exact ⟨g, rfl, fun h => by simp at h⟩
      | realizeMarker var =>
        cases p with
        | nil =>
          have hg := hnil rfl
          subst hg
          simp
        | cons a rest =>
          simp only
          have hnum : ((a :: rest ++ g).length : Int) = (rest.length : Int) + 1 + g.length := by
            simp; ring
          have h0 : ¬ ((a :: rest ++ g).length : Int) = 0 := by omega
          rw [if_neg h0]
          cases rest with
          | nil =>
            cases g with
            | nil =>
              cases hI : InsertRealize H (blockOf a []) var info1 with
              | none =>
                have hI' : InsertRealize H a var info1 = none := hI
                simp [EmitBlock_realize_front, hI']
              | some r =>
                have hI' : InsertRealize H a var info1 = some r := hI
                refine ⟨[], ?_, fun h => by simp at h⟩
                simp [EmitBlock_realize_front, hI']
            | cons g0 gs =>
              have h1 : ¬ (([a] ++ g0 :: gs).length : Int) = 1 := by
                simp; omega
              have h2 : (([a] ++ g0 :: gs).length : Int) - ((g0 :: gs).length : Int) = 1 := by
                simp
              rw [if_neg h1, if_pos h2]
              cases hI : InsertRealize H (blockOf a []) var info1 with
              | none =>
                have hI' : InsertRealize H a var info1 = none := hI
                simp [EmitBlock_realize_front, hI']
              | some r =>
                have hI' : InsertRealize H a var info1 = some r := hI
                refine ⟨g0 :: gs, ?_, fun h => by simp at h⟩
                simp [EmitBlock_realize_front, hI']
          | cons b tl =>
            obtain ⟨mid, hm1, hm2⟩ := EmitBlock_merge_pending a b tl g
            have h1 : ¬ ((a :: b :: tl ++ g).length : Int) = 1 := by
              simp; omega
            have h2 : ¬ ((a :: b :: tl ++ g).length : Int) - (g.length : Int) = 1 := by
              simp; omega
            have h3 : ((a :: b :: tl ++ g).length : Int) - 2 - (g.length : Int) ≥ 0 := by
              simp; omega
            have h4 : (((a :: b :: tl ++ g).length : Int) - 2 - (g.length : Int)).toNat =
                tl.length := by
              simp; omega
            rw [if_neg h1, if_neg h2]
            simp only [h3, ↓reduceIte, h4, hm1, EmitBlock_realize_front]
            cases hI : InsertRealize H (blockOf a (b :: tl)) var info1 with
            | none => simp
            | some r =>
              refine ⟨mid, ?_, fun h => by simp at h⟩
              simp [hm2]
              omega

/-- The result of `EmitBlock` is the block of the live front part of the vector. -/
theorem EmitBlock_eq_pending {σ τ β ι : Type} (H : RealizeEnv σ τ β ι)
    (cs : List (BlockChild σ ι)) (info : ι) :
    EmitBlock H cs info =
      match EmitBlock_pending H cs info with
      | none => none
      | some ([], info1) => some (none, info1)
      | some (a :: tl, info1) => some (some (blockOf a tl), info1) := by
  have inv := EmitBlock_loop_inv H cs info
  unfold EmitBlock
  cases hp : EmitBlock_pending H cs info with
  | none =>
    rw [hp] at inv
    simp only at inv
    rw [inv]
  | some pi =>
    obtain ⟨p, info1⟩ := pi
    rw [hp] at inv
    obtain ⟨g, hloop, hnil⟩ := inv
    rw [hloop]
    cases p with
    | nil =>
      have hg := hnil rfl
      subst hg
      simp
    | cons a rest =>
      simp only
      have h0 : ¬ ((a :: rest ++ g).length : Int) = 0 := by
        simp; omega
      rw [if_neg h0]
      cases rest with
      | nil =>
        have h1 : (g.length : Int) = (([a] ++ g).length : Int) - 1 := by
          simp
        rw [if_pos h1]
        simp [blockOf]
      | cons b tl =>
        obtain ⟨mid, hm1, _⟩ := EmitBlock_merge_pending a b tl g
        have h1 : ¬ (g.length : Int) = ((a :: b :: tl ++ g).length : Int) - 1 := by
          simp; omega
        have h3 : ((a :: b :: tl ++ g).length : Int) - 2 - (g.length : Int) ≥ 0 := by
          simp; omega
        have h4 : (((a :: b :: tl ++ g).length : Int) - 2 - (g.length : Int)).toNat =
            tl.length := by
          simp; omega
        rw [if_neg h1]
        simp only [h3, ↓reduceIte, h4, hm1]
        simp

/-- How `EmitBlock` treats the first child, given its result on the later
children: on top of an undefined result an emitted statement stands alone, a
child without statement changes nothing and a realize marker aborts; on top of
a statement `r` the child is placed before `r`. -/
theorem EmitBlock_cons {σ τ β ι : Type} (H : RealizeEnv σ τ β ι) (child : BlockChild σ ι)
    (later : List (BlockChild σ ι)) (info : ι) :
    EmitBlock H (child :: later) info =
      match EmitBlock H later info with
      | none => none
      | some (none, info1) =>
        (match child with
          | BlockChild.realizeMarker _ => none
          | BlockChild.node none after => some (none, after info1)
          | BlockChild.node (some s) after => some (some (Stmt.emitted s), after info1))
      | some (some r, info1) =>
        match placeBefore H child r info1 with
        | none => none
        | some (s, info2) => some (some s, info2) := by
  rw [EmitBlock_eq_pending H (child :: later), EmitBlock_eq_pending H later,
    EmitBlock_pending_cons]
  cases hp : EmitBlock_pending H later info with
  | none => rfl
  | some pi =>
    obtain ⟨p, info1⟩ := pi
    cases p with
    | nil => cases child with
      | realizeMarker v => rfl
      | node body after => cases body <;> rfl
    | cons a tl => cases child with
      | realizeMarker v =>
        simp only [placeBefore]
        cases InsertRealize H (blockOf a tl) v info1 with
        | none => rfl
        | some r => rfl
      | node body after => cases body <;> rfl

theorem leaves_rel_refl {σ : Type} (R : σ → σ → Prop) (hrefl : ∀ a, R a a) (l : List σ) :
    List.Forall₂ R l l := by
  induction l with
  | nil => exact List.Forall₂.nil
  | cons a l ih => exact List.Forall₂.cons (hrefl a) ih

/-- The modelled `FindInnerRealize` keeps the emitted statements: it removes
realize nodes only. -/
theorem FindInnerRealize_strip_leaves {σ τ : Type} (name_of : τ → String) (name : String)
    (s : Stmt σ τ) : (FindInnerRealize_strip name_of name s).leaves = s.leaves := by
  induction s with
  | emitted x => rfl
  | block a b iha ihb => simp [FindInnerRealize_strip, Stmt.leaves, iha, ihb]
  | realize t body ih =>
    by_cases hn : name_of t = name
    · simp [FindInnerRealize_strip, Stmt.leaves, hn, ih]
    · simp [FindInnerRealize_strip, Stmt.leaves, hn, ih]
  | attr_realize_scope t scope body ih => simp [FindInnerRealize_strip, Stmt.leaves, ih]

/-- C17. `EmitBlock` without realize markers: for children whose defined emitted
statements are `s_1 .. s_k` in child order, the result is undefined when
`k = 0`, `s_1` when `k = 1`, and the right-nested
`Block(s_1, Block(s_2, ... s_k))` otherwise; children with an undefined
statement are skipped and the child order is kept.  This holds whatever
`InsertRealize` would call and whatever the children do to the state, which is
left as the calls `EmitAst(child)`, made from the last child to the first, leave
it. -/
theorem EmitBlock_no_realize {σ τ β ι : Type} (H : RealizeEnv σ τ β ι)
    (children : List (Option σ × (ι → ι))) (info : ι) :
    EmitBlock H (children.map (fun c => BlockChild.node c.1 c.2)) info =
      some (match children.filterMap (fun c => c.1) with
        | [] => none
        | s :: rest => some (blockOf (Stmt.emitted s) (rest.map Stmt.emitted)),
        children.foldr (fun c i => c.2 i) info) := by
  induction children with
  | nil => simp [EmitBlock, EmitBlock_loop]
  | cons b children ih =>
    obtain ⟨body, after⟩ := b
    rw [List.map_cons, EmitBlock_cons, ih]
    cases body with
    | none =>
      cases hf : children.filterMap (fun c => c.1) with
      | nil => simp [hf]
      | cons s rest => simp [hf, placeBefore]
    | some x =>
      cases hf : children.filterMap (fun c => c.1) with
      | nil => simp [hf, blockOf]
      | cons s rest => simp [hf, blockOf, placeBefore]

/-! ### If nodes -/

/-- C18 fails on the code.  For an if node with the defined condition `c` whose
then-branch emits no statement and whose else-branch emits the statement
`s_else`, `EmitIf` returns the undefined statement at its early return: the
result is no conditional and `s_else` is absent (the else-branch is not even
emitted).  On the path where the then-branch emits `s_then`, the same node gives
`IfThenElse(c, s_then, s_else)`, with the else statement in it. -/
theorem EmitIf_drops_else :
    (EmitIf (some "c") (fun l => ((none : Option String), l))
        (some (fun l => (some "s_else", l))) []).1 = none ∧
      (EmitIf (some "c") (fun l => (some "s_then", l))
        (some (fun l => (some "s_else", l))) []).1 =
          some (IfStmt.ifThenElse "c" "s_then" (some "s_else")) := by
  decide

/-- The path of `EmitIf` past the early return.  For every if node whose
then-branch emits a defined statement: when the condition is defined the result
is `IfThenElse(condition, emitted then-branch, emitted else-branch)`, so a
defined else statement is present in it, and when the condition is undefined the
result is the emitted then-branch alone. -/
theorem EmitIf_result {γ β : Type} (cond_expr : Option γ)
    (EmitAst_then : List (Option γ) → Option β × List (Option γ))
    (EmitAst_else : Option (List (Option γ) → Option β × List (Option γ)))
    (cur_if_list_ l1 : List (Option γ)) (then_case : β)
    (hthen : EmitAst_then (cur_if_list_ ++ [cond_expr]) = (some then_case, l1)) :
    (EmitIf cond_expr EmitAst_then EmitAst_else cur_if_list_).1 =
      match cond_expr with
      | none => some (IfStmt.plain then_case)
      | some cond =>
        some (IfStmt.ifThenElse cond then_case
          (match EmitAst_else with
            | none => none
            | some emit => (emit l1).1)) := by
  unfold EmitIf
  simp only [hthen]
  cases EmitAst_else with
  | none => cases cond_expr <;> rfl
  | some emit => cases cond_expr <;> rfl

theorem EmitIf_result_witness :
    (fun l => (some "s_then", l) : List (Option String) → Option String × List (Option String))
        ([] ++ [some "c"]) = (some "s_then", [some "c"]) ∧
    (EmitIf (some "c") (fun l => (some "s_then", l)) (some (fun l => (some "s_else", l))) []).1 =
      match (some "c" : Option String) with
      | none => some (IfStmt.plain "s_then")
      | some cond =>
        some (IfStmt.ifThenElse cond "s_then"
          (match (some (fun l => (some "s_else", l)) :
              Option (List (Option String) → Option String × List (Option String))) with
            | none => none
            | some emit => (emit [some "c"]).1)) :=
  ⟨rfl, EmitIf_result (some "c") (fun l => (some "s_then", l))
    (some (fun l => (some "s_else", l))) [] [some "c"] "s_then" rfl⟩

/-! ### Scope of the iterator substitution -/

/-- C19 fails on the code.  For the node `for (c = 0; c <= 6; c += 2)` whose body
emits no statement, `EmitFor` returns the undefined statement and leaves the
entry of `c` in `stride_modify_iter_map_`, which was empty before the call; on
the path where the body emits a statement the entry is erased and the map is
empty again. -/
theorem EmitFor_undefined_body_keeps_entry :
    EmitFor (IslAstFor.mk "c" 0 IslCondOp.le 6 2) (fun st => ((none : Option Nat), st))
        (EmitterState.mk [] [] 0) =
      some (none, EmitterState.mk [] [(Variable.mk 0 "c", (2, 0))] 1) ∧
    EmitFor (IslAstFor.mk "c" 0 IslCondOp.le 6 2) (fun st => (some 7, st))
        (EmitterState.mk [] [] 0) =
      some (some (ForStmt.mk (Variable.mk 0 "c") 0 4 7), EmitterState.mk [] [] 1) := by
  decide

/-! ### Thread extents -/

/-- C20. `GetThreadExtent`: the block index names return the X, Y, Z block-config
extents in either thread mode; the thread index names return the X, Y, Z
thread-config extents in normal mode; in one-dimensional-thread mode
`threadIdx.x` returns `X * Y * Z` (the `int` products being in range) and
`threadIdx.y`, `threadIdx.z` return `1`, so the product of the three thread
extents is the same in both modes; every other name returns `1`. -/
theorem GetThreadExtent_spec (block_cfg thread_cfg : AxisExtents)
    (hxy : -2 ^ 31 ≤ thread_cfg.x * thread_cfg.y ∧ thread_cfg.x * thread_cfg.y < 2 ^ 31)
    (hxyz : -2 ^ 31 ≤ thread_cfg.x * thread_cfg.y * thread_cfg.z ∧
      thread_cfg.x * thread_cfg.y * thread_cfg.z < 2 ^ 31) :
    (∀ mode : Bool,
      GetThreadExtent block_cfg thread_cfg mode BLOCK_IDX_X = block_cfg.x ∧
      GetThreadExtent block_cfg thread_cfg mode BLOCK_IDX_Y = block_cfg.y ∧
      GetThreadExtent block_cfg thread_cfg mode BLOCK_IDX_Z = block_cfg.z) ∧
    (GetThreadExtent block_cfg thread_cfg false THREAD_IDX_X = thread_cfg.x ∧
      GetThreadExtent block_cfg thread_cfg false THREAD_IDX_Y = thread_cfg.y ∧
      GetThreadExtent block_cfg thread_cfg false THREAD_IDX_Z = thread_cfg.z) ∧
    (GetThreadExtent block_cfg thread_cfg true THREAD_IDX_X =
        thread_cfg.x * thread_cfg.y * thread_cfg.z ∧
      GetThreadExtent block_cfg thread_cfg true THREAD_IDX_Y = 1 ∧
      GetThreadExtent block_cfg thread_cfg true THREAD_IDX_Z = 1) ∧
    (GetThreadExtent block_cfg thread_cfg true THREAD_IDX_X *
        GetThreadExtent block_cfg thread_cfg true THREAD_IDX_Y *
        GetThreadExtent block_cfg thread_cfg true THREAD_IDX_Z =
      GetThreadExtent block_cfg thread_cfg false THREAD_IDX_X *
        GetThreadExtent block_cfg thread_cfg false THREAD_IDX_Y *
        GetThreadExtent block_cfg thread_cfg false THREAD_IDX_Z) ∧
    (∀ (mode : Bool) (name : String),
      name ≠ BLOCK_IDX_X → name ≠ BLOCK_IDX_Y → name ≠ BLOCK_IDX_Z →
      name ≠ THREAD_IDX_X → name ≠ THREAD_IDX_Y → name ≠ THREAD_IDX_Z →
      GetThreadExtent block_cfg thread_cfg mode name = 1) := by
  have wrap : ∀ i : Int, -2 ^ 31 ≤ i ∧ i < 2 ^ 31 → toInt32 i = i := by
    intro i hi
    unfold toInt32
    norm_num at hi ⊢
    omega
  have hprod : toInt32 (toInt32 (thread_cfg.x * thread_cfg.y) * thread_cfg.z) =
      thread_cfg.x * thread_cfg.y * thread_cfg.z := by
    rw [wrap _ hxy, wrap _ hxyz]
  have bxy : BLOCK_IDX_Y ≠ BLOCK_IDX_X := by decide
  have bzx : BLOCK_IDX_Z ≠ BLOCK_IDX_X := by decide
  have bzy : BLOCK_IDX_Z ≠ BLOCK_IDX_Y := by decide
  have tbx : THREAD_IDX_X ≠ BLOCK_IDX_X ∧ THREAD_IDX_X ≠ BLOCK_IDX_Y ∧
      THREAD_IDX_X ≠ BLOCK_IDX_Z := by decide
  have tby : THREAD_IDX_Y ≠ BLOCK_IDX_X ∧ THREAD_IDX_Y ≠ BLOCK_IDX_Y ∧
      THREAD_IDX_Y ≠ BLOCK_IDX_Z ∧ THREAD_IDX_Y ≠ THREAD_IDX_X := by decide
  have tbz : THREAD_IDX_Z ≠ BLOCK_IDX_X ∧ THREAD_IDX_Z ≠ BLOCK_IDX_Y ∧
      THREAD_IDX_Z ≠ BLOCK_IDX_Z ∧ THREAD_IDX_Z ≠ THREAD_IDX_X ∧
      THREAD_IDX_Z ≠ THREAD_IDX_Y := by decide
  have e1 : GetThreadExtent block_cfg thread_cfg true THREAD_IDX_X =
      thread_cfg.x * thread_cfg.y * thread_cfg.z := by
    simp [GetThreadExtent, tbx, hprod]
  have e2 : GetThreadExtent block_cfg thread_cfg true THREAD_IDX_Y = 1 := by
    simp [GetThreadExtent, tby]
  have e3 : GetThreadExtent block_cfg thread_cfg true THREAD_IDX_Z = 1 := by
    simp [GetThreadExtent, tbz]
  have f1 : GetThreadExtent block_cfg thread_cfg false THREAD_IDX_X = thread_cfg.x := by
    simp [GetThreadExtent, tbx]
  have f2 : GetThreadExtent block_cfg thread_cfg false THREAD_IDX_Y = thread_cfg.y := by
    simp [GetThreadExtent, tby]
  have f3 : GetThreadExtent block_cfg thread_cfg false THREAD_IDX_Z = thread_cfg.z := by
    simp [GetThreadExtent, tbz]
  refine ⟨fun mode => ⟨?_, ?_, ?_⟩, ⟨f1, f2, f3⟩, ⟨e1, e2, e3⟩, ?_, ?_⟩
  · simp [GetThreadExtent]
  · simp [GetThreadExtent, bxy]
  · simp [GetThreadExtent, bzx, bzy]
  · rw [e1, e2, e3, f1, f2, f3]; ring
  · intro mode name h1 h2 h3 h4 h5 h6
    simp [GetThreadExtent, h1, h2, h3, h4, h5, h6]

theorem GetThreadExtent_spec_witness :
    ((-2 ^ 31 ≤ (AxisExtents.mk 8 2 3).x * (AxisExtents.mk 8 2 3).y ∧
        (AxisExtents.mk 8 2 3).x * (AxisExtents.mk 8 2 3).y < 2 ^ 31) ∧
      (-2 ^ 31 ≤ (AxisExtents.mk 8 2 3).x * (AxisExtents.mk 8 2 3).y * (AxisExtents.mk 8 2 3).z ∧
        (AxisExtents.mk 8 2 3).x * (AxisExtents.mk 8 2 3).y * (AxisExtents.mk 8 2 3).z <
          2 ^ 31)) ∧
    GetThreadExtent (AxisExtents.mk 4096 2 1) (AxisExtents.mk 8 2 3) true THREAD_IDX_X =
      (AxisExtents.mk 8 2 3).x * (AxisExtents.mk 8 2 3).y * (AxisExtents.mk 8 2 3).z ∧
    GetThreadExtent (AxisExtents.mk 4096 2 1) (AxisExtents.mk 8 2 3) true THREAD_IDX_X *
        GetThreadExtent (AxisExtents.mk 4096 2 1) (AxisExtents.mk 8 2 3) true THREAD_IDX_Y *
        GetThreadExtent (AxisExtents.mk 4096 2 1) (AxisExtents.mk 8 2 3) true THREAD_IDX_Z =
      GetThreadExtent (AxisExtents.mk 4096 2 1) (AxisExtents.mk 8 2 3) false THREAD_IDX_X *
        GetThreadExtent (AxisExtents.mk 4096 2 1) (AxisExtents.mk 8 2 3) false THREAD_IDX_Y *
        GetThreadExtent (AxisExtents.mk 4096 2 1) (AxisExtents.mk 8 2 3) false THREAD_IDX_Z :=
  ⟨⟨by decide, by decide⟩,
    (GetThreadExtent_spec (AxisExtents.mk 4096 2 1) (AxisExtents.mk 8 2 3)
      (by decide) (by decide)).2.2.1.1,
    (GetThreadExtent_spec (AxisExtents.mk 4096 2 1) (AxisExtents.mk 8 2 3)
      (by decide) (by decide)).2.2.2.1⟩

/-! ### Axis selection of synthesized thread variables -/

theorem find?_range_first (p : Nat → Bool) (n : Nat) :
    ∀ i, i < n → p i = true → (∀ j < i, p j = false) → (List.range n).find? p = some i := by
  induction n with
  | zero => intro i hi; omega
  | succ n ih =>
    intro i hi hp hnp
    rw [List.range_succ, List.find?_append]
    by_cases hin : i < n
    · rw [ih i hin hp hnp]; rfl
    · have e : i = n := by omega
      subst e
      have hnone : (List.range i).find? p = none := by
        rw [List.find?_eq_none]
        intro x hx
        simp only [List.mem_range] at hx
        simp [hnp x hx]
      rw [hnone]
      simp [hp]

/-- When `name` is not a warp variable, contains the tag of axis `i` and contains
the tag of no earlier axis, `AdaptThreadNewVar` returns the expression of axis
`i`. -/
theorem AdaptThreadNewVar_first_tag (WARP_COMPUTE : String) (WARP_SIZE mx : Int) (name : String)
    (mapping_cfg : MappingCfg) (i : Nat) (hi : i < mapping_cfg.bound)
    (hwarp : findSub WARP_COMPUTE name = false)
    (htag : findSub ("t" ++ toString i) name = true)
    (hearlier : ∀ j < i, findSub ("t" ++ toString j) name = false) :
    AdaptThreadNewVar WARP_COMPUTE WARP_SIZE mx name mapping_cfg =
      some (AdaptThreadNewVar_expr mapping_cfg i) := by
  unfold AdaptThreadNewVar
  simp only [hwarp, Bool.false_eq_true, ↓reduceIte]
  rw [find?_range_first (fun i => findSub ("t" ++ toString i) name) mapping_cfg.bound i hi htag
    hearlier]

/-- C21 fails on the code.  For the replacement config named `promote_input0`
with bound 2 and extents `32, 4`, the variable `promote_input0_t1` names axis 1,
whose expression is `(T / 32) mod 4`; the loop looks for the tag `t0` anywhere
in the whole name, finds it inside `input0`, and returns the expression of axis
0, `T mod 32`.  For the config named `promote_input_1` the same variable tag
gives the expression of axis 1. -/
theorem AdaptThreadNewVar_wrong_axis :
    AdaptThreadNewVar "warp_compute" 32 32 "promote_input0_t1"
        (MappingCfg.mk 2 (fun i => if i = 0 then 32 else 4)) =
      some (IdxExpr.mod (IdxExpr.var T0) 32) ∧
    AdaptThreadNewVar "warp_compute" 32 32 "promote_input_1_t1"
        (MappingCfg.mk 2 (fun i => if i = 0 then 32 else 4)) =
      some (IdxExpr.mod (IdxExpr.div (IdxExpr.var T0) 32) 4) := by
  decide

/-! ### Order of the block-mapped dimensions -/

/-- C23. `MapBlockHelper` binds dimensions inner-to-outer: for a permutable band
with partial-schedule dimensions `d_0 .. d_(m-1)` and `n_block_map = k ≤ m`, the
list handed to the map-filter construction has length `k` and its `j`-th element
is `d_(k-1-j)`, so its element `0` is the innermost of the `k` mapped
dimensions. -/
theorem MapBlockHelper_upa_list_spec {α : Type} (upa_list : List α) (k : Nat)
    (hk : k ≤ upa_list.length) :
    ∃ l, MapBlockHelper_upa_list upa_list k = some l ∧ l.length = k ∧
      ∀ j, j < k → l[j]? = upa_list[k - 1 - j]? := by
  unfold MapBlockHelper_upa_list
  have hdrop : upa_list.drop (k + (upa_list.length - k)) = [] := by
    apply List.drop_eq_nil_of_le
    omega
  simp only [hk, ↓reduceIte, hdrop, List.append_nil]
  refine ⟨_, rfl, ?_, ?_⟩
  · simp [hk]
  · intro j hj
    have hlen : (upa_list.take k).length = k := by simp [hk]
    rw [List.getElem?_reverse (by omega), hlen, List.getElem?_take_of_lt (by omega)]

theorem MapBlockHelper_upa_list_spec_witness :
    2 ≤ ([10, 11, 12, 13] : List Nat).length ∧
    ∃ l, MapBlockHelper_upa_list ([10, 11, 12, 13] : List Nat) 2 = some l ∧ l.length = 2 ∧
      ∀ j, j < 2 → l[j]? = ([10, 11, 12, 13] : List Nat)[2 - 1 - j]? :=
  ⟨by decide, MapBlockHelper_upa_list_spec [10, 11, 12, 13] 2 (by decide)⟩

/-! ### Vector alignment -/

theorem toInt32_eq_self (i : Int) (h1 : -2 ^ 31 ≤ i) (h2 : i < 2 ^ 31) : toInt32 i = i := by
  unfold toInt32
  norm_num at h1 h2 ⊢
  omega

theorem toSizeT_natCast (n : Nat) (h : n < SIZE_MOD) : toSizeT (n : Int) = n := by
  unfold toSizeT
  have h' : (n : Int) < 2 ^ 64 := by
    have : n < 2 ^ 64 := by simpa [SIZE_MOD] using h
    exact_mod_cast this
  rw [Int.emod_eq_of_lt (by positivity) h']
  exact Int.toNat_natCast n

theorem OptimizeVectorAlign_zero (sizes : List Nat) : OptimizeVectorAlign 0 sizes = sizes := by
  unfold OptimizeVectorAlign
  cases sizes.getLast? <;> simp

/-- The last extent after `OptimizeVectorAlign` with a positive alignment `a`
(an `int`), before any interpretation: `L` plus the distance to the next
multiple of `a`, modulo `2 ^ 64`. -/
theorem OptimizeVectorAlign_concat (a : Nat) (l : List Nat) (L : Nat)
    (ha : 0 < a) (ha2 : a < 2 ^ 31) :
    OptimizeVectorAlign (a : Int) (l ++ [L]) =
      l ++ [(L + (if L % a = 0 then 0 else a - L % a)) % SIZE_MOD] := by
  have haS : a < SIZE_MOD := by
    have : (2 : Nat) ^ 31 < SIZE_MOD := by norm_num [SIZE_MOD]
    omega
  have hne : (a : Int) ≠ 0 := by exact_mod_cast (Nat.pos_iff_ne_zero.mp ha)
  have hmod : L % a < a := Nat.mod_lt _ ha
  have hpad : toInt32 ((L % a : Nat) : Int) = ((L % a : Nat) : Int) :=
    toInt32_of_small _ (by omega)
  have hz : toSizeT 0 = 0 := by simp [toSizeT]
  have hz32 : toInt32 0 = 0 := by decide
  unfold OptimizeVectorAlign
  by_cases h0 : L % a = 0
  · simp only [List.getLast?_concat, List.dropLast_concat, ne_eq, hne, not_false_eq_true,
      ↓reduceIte, toSizeT_natCast a haS, h0, Nat.cast_zero, hz32, not_true_eq_false, hz]
  · have hc : ((L % a : Nat) : Int) ≠ 0 := by exact_mod_cast h0
    have hsub : (a : Int) - ((L % a : Nat) : Int) = ((a - L % a : Nat) : Int) := by
      rw [Nat.cast_sub (le_of_lt hmod)]
    have hlt31 : a - L % a < 2 ^ 31 := by omega
    have hltS : a - L % a < SIZE_MOD := by omega
    simp only [List.getLast?_concat, List.dropLast_concat, ne_eq, hne, not_false_eq_true,
      ↓reduceIte, toSizeT_natCast a haS, hpad, hc, h0, hsub, toInt32_of_small _ hlt31,
      toSizeT_natCast _ hltS]

/-- C25, as stated, fails where the rounded extent does not fit in `size_t`: for
the last extent `2 ^ 64 - 1` and alignment `2` the addition wraps and the result
is `0`, which is not a multiple of the alignment that is `≥ L`. -/
theorem OptimizeVectorAlign_wraps :
    OptimizeVectorAlign 2 [18446744073709551615] = [0] ∧
      (18446744073709551615 : Nat) < SIZE_MOD ∧ ¬ (18446744073709551615 ≤ 0) := by
  decide

/-- C25 (amended). `OptimizeVectorAlign` rounds up to the alignment: for every
non-empty size vector with last extent `L` and every alignment `a > 0` such that
the least multiple `M` of `a` with `M ≥ L` is representable in `size_t`, the
result's last extent is `M` and all other extents are unchanged; the vector is
returned unchanged when `a = 0` or `L` is already a multiple of `a`. -/
theorem OptimizeVectorAlign_rounds_up (a : Nat) (l : List Nat) (L M : Nat)
    (ha : 0 < a) (ha2 : a < 2 ^ 31)
    (hdvd : a ∣ M) (hle : L ≤ M) (hleast : M < L + a) (hfit : M < SIZE_MOD) :
    OptimizeVectorAlign (a : Int) (l ++ [L]) = l ++ [M] ∧
      (a ∣ L → OptimizeVectorAlign (a : Int) (l ++ [L]) = l ++ [L]) ∧
      OptimizeVectorAlign 0 (l ++ [L]) = l ++ [L] := by
  have hM : M = L + (if L % a = 0 then 0 else a - L % a) := by
    obtain ⟨q, rfl⟩ := hdvd
    have hmod : L % a < a := Nat.mod_lt _ ha
    have hdiv := Nat.div_add_mod L a
    by_cases h0 : L % a = 0
    · simp only [h0, ↓reduceIte, add_zero]
      have hL : L = a * (L / a) := by omega
      have : q = L / a := by
        have h1 : a * (L / a) ≤ a * q := by omega
        have h2 : a * q < a * (L / a) + a := by omega
        have h3 : L / a ≤ q := Nat.le_of_mul_le_mul_left h1 ha
        have h4 : q < L / a + 1 := by
          have : a * q < a * (L / a + 1) := by rw [Nat.mul_add, Nat.mul_one]; exact h2
          exact Nat.lt_of_mul_lt_mul_left this
        omega
      rw [this]; exact hL.symm
    · simp only [h0, ↓reduceIte]
      have : q = L / a + 1 := by
        have h1 : a * (L / a) < a * q := by omega
        have h2 : a * q < a * (L / a + 2) := by
          rw [Nat.mul_add]; omega
        have h3 : L / a < q := Nat.lt_of_mul_lt_mul_left h1
        have h4 : q < L / a + 2 := Nat.lt_of_mul_lt_mul_left h2
        omega
      rw [this, Nat.mul_add, Nat.mul_one]
      omega
  have key := OptimizeVectorAlign_concat a l L ha ha2
  refine ⟨?_, ?_, OptimizeVectorAlign_zero _⟩
  · rw [key, ← hM, Nat.mod_eq_of_lt hfit]
  · intro hd
    have h0 : L % a = 0 := Nat.mod_eq_zero_of_dvd hd
    rw [key]
    simp only [h0, ↓reduceIte, add_zero]
    rw [Nat.mod_eq_of_lt (by omega)]

theorem OptimizeVectorAlign_rounds_up_witness :
    ((0 : Nat) < 4 ∧ (4 : Nat) < 2 ^ 31 ∧ (4 : Nat) ∣ 12 ∧ (9 : Nat) ≤ 12 ∧ (12 : Nat) < 9 + 4 ∧
      (12 : Nat) < SIZE_MOD) ∧
    (OptimizeVectorAlign ((4 : Nat) : Int) ([16] ++ [9]) = [16] ++ [12] ∧
      ((4 : Nat) ∣ 9 → OptimizeVectorAlign ((4 : Nat) : Int) ([16] ++ [9]) = [16] ++ [9]) ∧
      OptimizeVectorAlign 0 ([16] ++ [9]) = [16] ++ [9]) :=
  ⟨⟨by decide, by decide, by decide, by decide, by decide, by decide⟩,
    OptimizeVectorAlign_rounds_up 4 [16] 9 12 (by decide) (by decide) (by decide) (by decide)
      (by decide) (by decide)⟩

/-- C24, as stated, fails when a vector alignment is configured: with alignment
`4` the last extent `8` is padded to the odd `9` and then rounded up to `12`,
which is even. -/
theorem OptimizeSharedDimension_even_last :
    OptimizeSharedDimension { plainManager with shared_vector_align_ := 4 } [16, 8] = [16, 12] ∧
      12 % 2 = 0 := by
  decide

/-- C24 (amended). `OptimizeSharedDimension` forces the last extent odd when no
vector alignment is configured: for every non-empty size vector and alignment
`0` the result keeps all other extents and its last extent is odd.  With a non-zero alignment the odd extent is rounded up to the
alignment afterwards. -/
theorem OptimizeSharedDimension_odd (m : SharedMemoryManager) (l : List Nat) (L : Nat)
    (halign : m.shared_vector_align_ = 0) :
    ∃ L1, OptimizeSharedDimension m (l ++ [L]) = l ++ [L1] ∧ L1 % 2 = 1 := by
  simp only [OptimizeSharedDimension, halign, OptimizeVectorAlign_zero,
    OptimizeBankConflict_concat]
  refine ⟨_, rfl, ?_⟩
  by_cases h1 : L % 2 = 0
  · simp only [h1, ↓reduceIte]
    by_cases h2 : m.bank_conflict_ = true ∧ L < 32
    · simp [h2]
    · simp only [h2, ↓reduceIte]
      exact succ_mod_size_odd L h1
  · simp only [h1, ↓reduceIte]
    omega

theorem OptimizeSharedDimension_odd_witness :
    plainManager.shared_vector_align_ = 0 ∧
    ∃ L1, OptimizeSharedDimension plainManager ([16] ++ [8]) = [16] ++ [L1] ∧ L1 % 2 = 1 :=
  ⟨by decide, OptimizeSharedDimension_odd plainManager [16] 8 (by decide)⟩

/-! ### Accounted size and materialized size -/

/-- C26 fails on the code.  In the matmul pass over matrix C, for the tensor `C`
with footprint box `64 x 129` and 4-byte elements `HoistClusters` deducts
`64 * 129 * 4 = 33024` bytes, while `GatherBufferFootprintDefInfo` records the
sizes `64 x 137` (it adds 8 to the last extent of matrix C), a buffer of
`64 * 137 * 4 = 35072` bytes. -/
theorem matmul_c_buffer_exceeds_requirement :
    HoistClustersStep matmulManagerC (entryState 65536)
        (freshInfo "C" (boxCluster [64, 129] false false) 4) =
      some (HoistState.mk 32512 ["C"] [33024],
        { freshInfo "C" (boxCluster [64, 129] false false) 4 with
            sizes := [64, 137], find_buffer := true }) ∧
    bufferBytes { freshInfo "C" (boxCluster [64, 129] false false) 4 with
        sizes := [64, 137], find_buffer := true } = 35072 ∧
    ¬ (35072 ≤ 33024) := by
  decide

/-! ### Exclusive specialisations -/

theorem Transform_reduce_flag_true (AKG_REDUCE_UNSUPPORTED : String)
    (AkgSupportedReduceOp : List String) (reduce_op_types : List String) (cfg : GpuFlags)
    (h : (Transform_cuda_flags AKG_REDUCE_UNSUPPORTED AkgSupportedReduceOp reduce_op_types
        cfg).enable_akg_reduce_lib = true) :
    cfg.enable_akg_reduce_lib = true ∧ reduce_op_types ≠ [] := by
  constructor
  · cases hr : cfg.enable_akg_reduce_lib
    · simp [Transform_cuda_flags, hr] at h
    · rfl
  · intro e
    subst e
    simp [Transform_cuda_flags] at h

/-- C29. The GPU flag normalisation of `Scop::Transform` makes the
specialisations mutually exclusive: for every combination of requested flags and
reduction statements, when the GPU passes run the reduce library and matmul are
not both enabled, tensor-core is not enabled together with the reduce library,
and each of the three is enabled only if the kernel has at least one reduction
statement. -/
theorem Transform_flags_exclusive (AKG_REDUCE_UNSUPPORTED : String)
    (AkgSupportedReduceOp : List String) (reduce_op_types : List String) (cfg : GpuFlags) :
    ¬ ((Transform_cuda_flags AKG_REDUCE_UNSUPPORTED AkgSupportedReduceOp reduce_op_types
          cfg).enable_akg_reduce_lib = true ∧
        (Transform_cuda_flags AKG_REDUCE_UNSUPPORTED AkgSupportedReduceOp reduce_op_types
          cfg).enable_matmul = true) ∧
    ¬ ((Transform_cuda_flags AKG_REDUCE_UNSUPPORTED AkgSupportedReduceOp reduce_op_types
          cfg).enable_akg_reduce_lib = true ∧
        (Transform_cuda_flags AKG_REDUCE_UNSUPPORTED AkgSupportedReduceOp reduce_op_types
          cfg).enable_tensor_core = true) ∧
    ((Transform_cuda_flags AKG_REDUCE_UNSUPPORTED AkgSupportedReduceOp reduce_op_types
          cfg).enable_akg_reduce_lib = true → reduce_op_types ≠ []) ∧
    ((Transform_cuda_flags AKG_REDUCE_UNSUPPORTED AkgSupportedReduceOp reduce_op_types
          cfg).enable_matmul = true → reduce_op_types ≠ []) ∧
    ((Transform_cuda_flags AKG_REDUCE_UNSUPPORTED AkgSupportedReduceOp reduce_op_types
          cfg).enable_tensor_core = true → reduce_op_types ≠ []) := by
  have hr := Transform_reduce_flag_true AKG_REDUCE_UNSUPPORTED AkgSupportedReduceOp
    reduce_op_types cfg
  have hm : (Transform_cuda_flags AKG_REDUCE_UNSUPPORTED AkgSupportedReduceOp reduce_op_types
      cfg).enable_matmul =
      (!reduce_op_types.isEmpty && !cfg.enable_akg_reduce_lib && cfg.enable_matmul) := by
    unfold Transform_cuda_flags
    simp only
    split <;> rfl
  have ht : (Transform_cuda_flags AKG_REDUCE_UNSUPPORTED AkgSupportedReduceOp reduce_op_types
      cfg).enable_tensor_core =
      (!reduce_op_types.isEmpty && !cfg.enable_akg_reduce_lib && cfg.enable_tensor_core) := by
    unfold Transform_cuda_flags
    simp only
    split <;> rfl
  refine ⟨?_, ?_, ?_, ?_, ?_⟩
  · rintro ⟨h1, h2⟩
    have := hr h1
    rw [hm] at h2
    simp [this.1] at h2
  · rintro ⟨h1, h2⟩
    have := hr h1
    rw [ht] at h2
    simp [this.1] at h2
  · intro h; exact (hr h).2
  · intro h
    rw [hm] at h
    intro he
    simp [he] at h
  · intro h
    rw [ht] at h
    intro he
    simp [he] at h

/-! ### Balance of the condition stack -/

/-- C30 fails on the code.  For an if node with condition `c` whose then-branch
emits no statement, `EmitIf` returns before `cur_if_list_.pop_back()`: the list,
empty before the call, holds `c` after it.  On the path where the then-branch
emits a statement the list is empty again. -/
theorem EmitIf_early_return_keeps_condition :
    (EmitIf (some "c") (fun l => ((none : Option String), l)) none []).2 = [some "c"] ∧
      (EmitIf (some "c") (fun l => (some "s_then", l)) none []).2 = [] := by
  decide

/-! ### Mixed-radix decomposition of the thread index -/

theorem mixed_radix_sum (t : Nat) (e : Nat → Nat) (k : Nat) :
    ∑ i in Finset.range k, (t / (∏ j in Finset.range i, e j) % e i) *
        (∏ j in Finset.range i, e j) = t % (∏ j in Finset.range k, e j) := by
  induction k with
  | zero => simp [Nat.mod_one]
  | succ k ih =>
    rw [Finset.sum_range_succ, ih, Finset.prod_range_succ, Nat.mod_mul]
    ring

theorem eval_div_chain (mapping_cfg : MappingCfg) (env : String → Int) (t : Nat) (e : Nat → Nat)
    (hT : env T0 = (t : Int)) (i : Nat) (he : ∀ j < i, mapping_cfg.extent j = (e j : Int)) :
    IdxExpr.eval env
        ((List.range i).foldl (fun x j => IdxExpr.div x (mapping_cfg.extent j)) (IdxExpr.var T0)) =
      ((t / (∏ j in Finset.range i, e j) : Nat) : Int) := by
  induction i with
  | zero => simp [IdxExpr.eval, hT]
  | succ i ih =>
    rw [List.range_succ, List.foldl_append]
    simp only [List.foldl_cons, List.foldl_nil, IdxExpr.eval]
    rw [ih (fun j hj => he j (by omega)), he i (by omega), ← Int.ofNat_tdiv,
      Nat.div_div_eq_div_mul, Finset.prod_range_succ]

theorem eval_AdaptThreadNewVar_expr (mapping_cfg : MappingCfg) (env : String → Int) (t : Nat)
    (e : Nat → Nat) (hT : env T0 = (t : Int)) (i : Nat)
    (he : ∀ j ≤ i, mapping_cfg.extent j = (e j : Int)) :
    IdxExpr.eval env (AdaptThreadNewVar_expr mapping_cfg i) =
      ((t / (∏ j in Finset.range i, e j) % e i : Nat) : Int) := by
  unfold AdaptThreadNewVar_expr
  by_cases h0 : i = 0
  · subst h0
    simp only [↓reduceIte, IdxExpr.eval, hT, he 0 (le_refl 0), Finset.range_zero,
      Finset.prod_empty, Nat.div_one]
    rw [← Int.ofNat_tmod]
  · simp only [h0, ↓reduceIte, IdxExpr.eval]
    rw [eval_div_chain mapping_cfg env t e hT i (fun j hj => he j (by omega)), he i (le_refl i),
      ← Int.ofNat_tmod]

/-- C22. The nested div/mod decomposition built by `AdaptThreadNewVar` is a
mixed-radix round trip: for all extents `e_0 .. e_(k-1) ≥ 1` and every thread
index `T` with `0 ≤ T < e_0 * ... * e_(k-1)`, the components
`c_i = (T / e_0 / ... / e_(i-1)) mod e_i` satisfy `0 ≤ c_i < e_i` and the sum of
`c_i * (e_0 * ... * e_(i-1))` over `i < k` is `T`, so two thread indices in that
range with the same components are equal. -/
theorem AdaptThreadNewVar_mixed_radix (mapping_cfg : MappingCfg) (env env2 : String → Int)
    (hext : ∀ j < mapping_cfg.bound, 1 ≤ mapping_cfg.extent j)
    (hT : 0 ≤ env T0 ∧ env T0 < ∏ j in Finset.range mapping_cfg.bound, mapping_cfg.extent j)
    (hT2 : 0 ≤ env2 T0 ∧
      env2 T0 < ∏ j in Finset.range mapping_cfg.bound, mapping_cfg.extent j) :
    (∀ i < mapping_cfg.bound,
      0 ≤ IdxExpr.eval env (AdaptThreadNewVar_expr mapping_cfg i) ∧
      IdxExpr.eval env (AdaptThreadNewVar_expr mapping_cfg i) < mapping_cfg.extent i) ∧
    ∑ i in Finset.range mapping_cfg.bound,
        IdxExpr.eval env (AdaptThreadNewVar_expr mapping_cfg i) *
          (∏ j in Finset.range i, mapping_cfg.extent j) = env T0 ∧
    ((∀ i < mapping_cfg.bound,
        IdxExpr.eval env (AdaptThreadNewVar_expr mapping_cfg i) =
          IdxExpr.eval env2 (AdaptThreadNewVar_expr mapping_cfg i)) → env T0 = env2 T0) := by
  have he : ∀ j < mapping_cfg.bound,
      mapping_cfg.extent j = (((mapping_cfg.extent j).toNat : Nat) : Int) := by
    intro j hj
    exact (Int.toNat_of_nonneg (by have := hext j hj; omega)).symm
  have hprod : ∀ i ≤ mapping_cfg.bound,
      (∏ j in Finset.range i, mapping_cfg.extent j) =
        ((∏ j in Finset.range i, (mapping_cfg.extent j).toNat : Nat) : Int) := by
    intro i hi
    rw [Nat.cast_prod]
    apply Finset.prod_congr rfl
    intro j hj
    exact he j (by have := Finset.mem_range.mp hj; omega)
  have sumT : ∀ (env : String → Int), 0 ≤ env T0 →
      env T0 < ∏ j in Finset.range mapping_cfg.bound, mapping_cfg.extent j →
      ∑ i in Finset.range mapping_cfg.bound,
        IdxExpr.eval env (AdaptThreadNewVar_expr mapping_cfg i) *
          (∏ j in Finset.range i, mapping_cfg.extent j) = env T0 := by
    intro env h0 hlt
    have hTn : env T0 = (((env T0).toNat : Nat) : Int) := (Int.toNat_of_nonneg h0).symm
    have hlt' : (env T0).toNat < ∏ j in Finset.range mapping_cfg.bound,
        (mapping_cfg.extent j).toNat := by
      rw [hprod _ (le_refl _), hTn] at hlt
      exact_mod_cast hlt
    have hsum := mixed_radix_sum (env T0).toNat (fun j => (mapping_cfg.extent j).toNat)
      mapping_cfg.bound
    rw [Nat.mod_eq_of_lt hlt'] at hsum
    have hcast : (((∑ i in Finset.range mapping_cfg.bound,
        ((env T0).toNat / (∏ j in Finset.range i, (mapping_cfg.extent j).toNat) %
          (mapping_cfg.extent i).toNat) *
          (∏ j in Finset.range i, (mapping_cfg.extent j).toNat) : Nat)) : Int) =
        (((env T0).toNat : Nat) : Int) := by rw [hsum]
    rw [Nat.cast_sum] at hcast
    rw [hTn.trans hcast.symm]
    apply Finset.sum_congr rfl
    intro i hi
    have hib : i < mapping_cfg.bound := Finset.mem_range.mp hi
    rw [eval_AdaptThreadNewVar_expr mapping_cfg env (env T0).toNat
      (fun j => (mapping_cfg.extent j).toNat) hTn i (fun j hj => he j (by omega)),
      hprod i (le_of_lt hib), Nat.cast_mul]
  refine ⟨?_, sumT env hT.1 hT.2, ?_⟩
  · intro i hi
    have hTn : env T0 = (((env T0).toNat : Nat) : Int) := (Int.toNat_of_nonneg hT.1).symm
    rw [eval_AdaptThreadNewVar_expr mapping_cfg env (env T0).toNat
      (fun j => (mapping_cfg.extent j).toNat) hTn i (fun j hj => he j (by omega))]
    have hpos : 0 < (mapping_cfg.extent i).toNat := by
      have := hext i hi
      omega
    refine ⟨by positivity, ?_⟩
    conv_rhs => rw [he i hi]
    exact_mod_cast Nat.mod_lt _ hpos
  · intro hsame
    rw [← sumT env hT.1 hT.2, ← sumT env2 hT2.1 hT2.2]
    apply Finset.sum_congr rfl
    intro i hi
    rw [hsame i (Finset.mem_range.mp hi)]

theorem AdaptThreadNewVar_mixed_radix_witness :
    ((∀ j < threadCfg32x4.bound, 1 ≤ threadCfg32x4.extent j) ∧
      (0 ≤ threadEnv 100 T0 ∧
        threadEnv 100 T0 < ∏ j in Finset.range threadCfg32x4.bound, threadCfg32x4.extent j) ∧
      (0 ≤ threadEnv 77 T0 ∧
        threadEnv 77 T0 < ∏ j in Finset.range threadCfg32x4.bound, threadCfg32x4.extent j)) ∧
    ((∀ i < threadCfg32x4.bound,
        0 ≤ IdxExpr.eval (threadEnv 100) (AdaptThreadNewVar_expr threadCfg32x4 i) ∧
        IdxExpr.eval (threadEnv 100) (AdaptThreadNewVar_expr threadCfg32x4 i) <
          threadCfg32x4.extent i) ∧
      ∑ i in Finset.range threadCfg32x4.bound,
          IdxExpr.eval (threadEnv 100) (AdaptThreadNewVar_expr threadCfg32x4 i) *
            (∏ j in Finset.range i, threadCfg32x4.extent j) = threadEnv 100 T0 ∧
      ((∀ i < threadCfg32x4.bound,
          IdxExpr.eval (threadEnv 100) (AdaptThreadNewVar_expr threadCfg32x4 i) =
            IdxExpr.eval (threadEnv 77) (AdaptThreadNewVar_expr threadCfg32x4 i)) →
        threadEnv 100 T0 = threadEnv 77 T0)) :=
  ⟨⟨by decide, by simp [threadEnv, threadCfg32x4, Finset.prod_range_succ],
      by simp [threadEnv, threadCfg32x4, Finset.prod_range_succ]⟩,
    AdaptThreadNewVar_mixed_radix threadCfg32x4 (threadEnv 100) (threadEnv 77) (by decide)
      (by simp [threadEnv, threadCfg32x4, Finset.prod_range_succ])
      (by simp [threadEnv, threadCfg32x4, Finset.prod_range_succ])⟩

/-! ### Convolution H/W block split -/

/-- For a variable of the `CONV_H_W` replacement config, `AdaptBlockNewVar`
returns `B1 mod mx` for the tag `B0` and `B1 / mx` for the tag `B1`. -/
theorem AdaptBlockNewVar_h_w (names : BlockNames) (mx : Int) (name : String)
    (h : findSub names.CONV_H_W name = true) :
    AdaptBlockNewVar names mx name =
      if findSub names.B0 name = true then some (IdxExpr.mod (IdxExpr.var names.B1) mx)
      else if findSub names.B1 name = true then some (IdxExpr.div (IdxExpr.var names.B1) mx)
      else none := by
  simp [AdaptBlockNewVar, h]

/-- C27, as stated, fails when `min(h, Y)` does not divide `Y`: for `Y = 5` and
`h = 2` the recorded extents are `(5 / 2, 2) = (2, 2)` with product `4`, and for
`blockIdx.y = 4` the second component `blockIdx.y / 2` is `2`, not below
`min(h, Y) = 2`. -/
theorem conv_h_w_split_not_exact :
    ResetConvBlockMappingConfig_h_w 2 5 = some (2, 2) ∧ (2 : Int) * 2 ≠ 5 ∧
      (AdaptBlockNewVar convNames 2 "conv_h_w_b1").map (IdxExpr.eval (threadEnv 4)) = some 2 ∧
      ¬ ((2 : Int) < min 2 5) := by
  decide

/-- C27 (amended). For every block.y extent `Y ≥ 1` and every H extent `h ≥ 1`
(both `int` values), `ResetConvBlockMappingConfig` records the two extents
`(Y / min(h, Y), min(h, Y))`, whose product is at most `Y`; when `min(h, Y)`
divides `Y` the product is `Y`, and then for every `blockIdx.y` in `[0, Y)` and
`mx = Y / min(h, Y)` the first component `blockIdx.y mod mx` lies in `[0, mx)`
and the second component `blockIdx.y / mx` lies in `[0, min(h, Y))`. -/
theorem conv_h_w_split (h Y : Int) (names : BlockNames) (env : String → Int)
    (hh : 1 ≤ h ∧ h < 2 ^ 31) (hY : 1 ≤ Y ∧ Y < 2 ^ 31) :
    ResetConvBlockMappingConfig_h_w h Y = some (Y / min h Y, min h Y) ∧
      Y / min h Y * min h Y ≤ Y ∧
      (min h Y ∣ Y →
        Y / min h Y * min h Y = Y ∧
        (0 ≤ env names.B1 → env names.B1 < Y →
          (0 ≤ IdxExpr.eval env (IdxExpr.mod (IdxExpr.var names.B1) (Y / min h Y)) ∧
            IdxExpr.eval env (IdxExpr.mod (IdxExpr.var names.B1) (Y / min h Y)) < Y / min h Y) ∧
          (0 ≤ IdxExpr.eval env (IdxExpr.div (IdxExpr.var names.B1) (Y / min h Y)) ∧
            IdxExpr.eval env (IdxExpr.div (IdxExpr.var names.B1) (Y / min h Y)) < min h Y))) := by
  have hb1 : 1 ≤ min h Y := le_min hh.1 hY.1
  have hbY : min h Y ≤ Y := min_le_right _ _
  have hbpos : 0 < min h Y := by omega
  have hq0 : 0 ≤ Y / min h Y := Int.ediv_nonneg (by omega) (by omega)
  have hqle : Y / min h Y ≤ Y := Int.ediv_le_self _ (by omega)
  have hmul : Y / min h Y * min h Y ≤ Y := Int.ediv_mul_le Y (by omega)
  refine ⟨?_, hmul, ?_⟩
  · unfold ResetConvBlockMappingConfig_h_w
    have e1 : toInt32 h = h := toInt32_eq_self h (by omega) hh.2
    have e2 : Int.tdiv Y (min h Y) = Y / min h Y := Int.tdiv_eq_ediv (by omega) (by omega)
    have e3 : toInt32 (Y / min h Y) = Y / min h Y := toInt32_eq_self _ (by omega) (by omega)
    simp only [e1, e2, e3]
    rw [if_neg (by omega)]
  · intro hdvd
    have hexact : Y / min h Y * min h Y = Y := Int.ediv_mul_cancel hdvd
    have hqpos : 0 < Y / min h Y := by
      rcases lt_or_eq_of_le hq0 with hlt | heq
      · exact hlt
      · rw [← heq] at hexact
        omega
    refine ⟨hexact, fun hy0 hyY => ⟨?_, ?_⟩⟩
    · simp only [IdxExpr.eval]
      rw [Int.tmod_eq_emod hy0 (by omega)]
      exact ⟨Int.emod_nonneg _ (by omega), Int.emod_lt_of_pos _ hqpos⟩
    · simp only [IdxExpr.eval]
      rw [Int.tdiv_eq_ediv hy0 (by omega)]
      refine ⟨Int.ediv_nonneg hy0 (by omega), ?_⟩
      apply Int.ediv_lt_of_lt_mul hqpos
      rw [mul_comm, hexact]
      exact hyY

theorem conv_h_w_split_witness :
    (((1 : Int) ≤ 2 ∧ (2 : Int) < 2 ^ 31) ∧ ((1 : Int) ≤ 6 ∧ (6 : Int) < 2 ^ 31)) ∧
    (ResetConvBlockMappingConfig_h_w 2 6 = some (6 / min 2 6, min 2 6) ∧
      (6 : Int) / min 2 6 * min 2 6 ≤ 6 ∧
      (min (2 : Int) 6 ∣ 6 →
        (6 : Int) / min 2 6 * min 2 6 = 6 ∧
        (0 ≤ threadEnv 5 convNames.B1 → threadEnv 5 convNames.B1 < 6 →
          (0 ≤ IdxExpr.eval (threadEnv 5)
                (IdxExpr.mod (IdxExpr.var convNames.B1) (6 / min 2 6)) ∧
            IdxExpr.eval (threadEnv 5)
                (IdxExpr.mod (IdxExpr.var convNames.B1) (6 / min 2 6)) < 6 / min 2 6) ∧
          (0 ≤ IdxExpr.eval (threadEnv 5)
                (IdxExpr.div (IdxExpr.var convNames.B1) (6 / min 2 6)) ∧
            IdxExpr.eval (threadEnv 5)
                (IdxExpr.div (IdxExpr.var convNames.B1) (6 / min 2 6)) < min 2 6)))) :=
  ⟨⟨by decide, by decide⟩,
    conv_h_w_split 2 6 convNames (threadEnv 5) (by decide) (by decide)⟩

/-! ### Replacement thread config -/

theorem toInt32_lt (i : Int) : toInt32 i < 2 ^ 31 := by
  unfold toInt32
  have := Int.emod_lt_of_pos (i + 2 ^ 31) (show (0 : Int) < 2 ^ 32 by norm_num)
  norm_num at this ⊢
  omega

theorem GetCurrentConfig_total_thread_lt (thread_cfg : MappingCfg) :
    GetCurrentConfig_total_thread thread_cfg < 2 ^ 31 := by
  unfold GetCurrentConfig_total_thread
  generalize thread_cfg.bound = n
  induction n with
  | zero => simp
  | succ n _ =>
    rw [List.range_succ, List.foldl_append]
    exact toInt32_lt _

theorem GetCurrentConfig_loop_spec (extents : List Int) :
    ∀ total_thread : Int, 1 ≤ total_thread → total_thread < 2 ^ 31 → extents ≠ [] →
      (∀ x ∈ extents, 1 ≤ x) →
      ∃ new_cfg divisions, GetCurrentConfig_loop total_thread extents = some (new_cfg, divisions) ∧
        new_cfg ≠ [] ∧ new_cfg.length ≤ extents.length ∧ (∀ e ∈ new_cfg, 1 ≤ e) ∧
        new_cfg.prod ≤ total_thread ∧
        ((∀ p ∈ divisions, p.2 ∣ p.1) → new_cfg.prod = total_thread) := by
  induction extents with
  | nil => intro t _ _ hne; exact absurd rfl hne
  | cons x rest ih =>
    intro t ht1 ht2 _ hpos
    have hx : 1 ≤ x := hpos x (List.mem_cons_self _ _)
    unfold GetCurrentConfig_loop
    by_cases hstop : x ≥ t ∨ (rest = [] ∧ x < t)
    · rw [if_pos hstop]
      exact ⟨[t], [], rfl, by simp, by simp, by simpa using ht1, by simp, fun _ => by simp⟩
    · rw [if_neg hstop, if_neg (by omega)]
      have hxt : x < t := by
        by_contra hc
        exact hstop (Or.inl (by omega))
      have hrest : rest ≠ [] := fun e => hstop (Or.inr ⟨e, hxt⟩)
      have hq : Int.tdiv t x = t / x := Int.tdiv_eq_ediv (by omega) (by omega)
      have hq1 : 1 ≤ t / x := Int.le_ediv_of_mul_le (by omega) (by omega)
      have hqle : t / x ≤ t := Int.ediv_le_self _ (by omega)
      have hq32 : toInt32 (t / x) = t / x := toInt32_eq_self _ (by omega) (by omega)
      rw [hq, hq32]
      obtain ⟨cfg, divs, hloop, hcne, hlen, hent, hprod, hdiv⟩ :=
        ih (t / x) hq1 (by omega) hrest (fun y hy => hpos y (List.mem_cons_of_mem _ hy))
      rw [hloop]
      refine ⟨x :: cfg, (t, x) :: divs, rfl, by simp, by simpa using hlen, ?_, ?_, ?_⟩
      · intro e he
        rcases List.mem_cons.mp he with h | h
        · rw [h]; exact hx
        · exact hent e h
      · rw [List.prod_cons]
        have h1 : x * cfg.prod ≤ x * (t / x) := Int.mul_le_mul_of_nonneg_left hprod (by omega)
        have h2 : x * (t / x) ≤ t := Int.mul_ediv_self_le (by omega)
        omega
      · intro hall
        have hxd : x ∣ t := hall (t, x) (List.mem_cons_self _ _)
        have hrestd : ∀ p ∈ divs, p.2 ∣ p.1 := fun p hp => hall p (List.mem_cons_of_mem _ hp)
        rw [List.prod_cons, hdiv hrestd]
        exact Int.mul_ediv_cancel' hxd

/-- C28. The replacement thread config generated by `GetCurrentConfig` never
oversubscribes the launch: for every total thread count `T ≥ 1` (the `int`
product of the thread-config extents) and every non-empty list of copy-band
extents `x_0 .. x_(d-1) ≥ 1`, the loop returns without dividing by zero, the
generated config is non-empty, has at most `d` entries, every entry is `≥ 1`,
and the product of its entries is `≤ T`, equal to `T` when every consumed extent
divides the running total. -/
theorem GetCurrentConfig_new_cfg_spec (thread_cfg : MappingCfg) (extents : List Int)
    (hT : 1 ≤ GetCurrentConfig_total_thread thread_cfg) (hne : extents ≠ [])
    (hpos : ∀ x ∈ extents, 1 ≤ x) :
    ∃ new_cfg divisions,
      GetCurrentConfig_new_cfg thread_cfg extents = some (some new_cfg, divisions) ∧
      new_cfg ≠ [] ∧ new_cfg.length ≤ extents.length ∧ (∀ e ∈ new_cfg, 1 ≤ e) ∧
      new_cfg.prod ≤ GetCurrentConfig_total_thread thread_cfg ∧
      ((∀ p ∈ divisions, p.2 ∣ p.1) →
        new_cfg.prod = GetCurrentConfig_total_thread thread_cfg) := by
  obtain ⟨cfg, divs, hloop, hcne, hlen, hent, hprod, hdiv⟩ :=
    GetCurrentConfig_loop_spec extents (GetCurrentConfig_total_thread thread_cfg) hT
      (GetCurrentConfig_total_thread_lt thread_cfg) hne hpos
  refine ⟨cfg, divs, ?_, hcne, hlen, hent, hprod, hdiv⟩
  unfold GetCurrentConfig_new_cfg
  rw [hloop]
  have : cfg.isEmpty = false := by
    cases cfg with
    | nil => exact absurd rfl hcne
    | cons a l => rfl
  simp [this]

theorem GetCurrentConfig_new_cfg_spec_witness :
    (1 ≤ GetCurrentConfig_total_thread threadCfg32x4 ∧ ([4, 16, 64] : List Int) ≠ [] ∧
      (∀ x ∈ ([4, 16, 64] : List Int), 1 ≤ x)) ∧
    ∃ new_cfg divisions,
      GetCurrentConfig_new_cfg threadCfg32x4 [4, 16, 64] = some (some new_cfg, divisions) ∧
      new_cfg ≠ [] ∧ new_cfg.length ≤ ([4, 16, 64] : List Int).length ∧
      (∀ e ∈ new_cfg, 1 ≤ e) ∧
      new_cfg.prod ≤ GetCurrentConfig_total_thread threadCfg32x4 ∧
      ((∀ p ∈ divisions, p.2 ∣ p.1) →
        new_cfg.prod = GetCurrentConfig_total_thread threadCfg32x4) :=
  ⟨⟨by decide, by decide, by decide⟩,
    GetCurrentConfig_new_cfg_spec threadCfg32x4 [4, 16, 64] (by decide) (by decide) (by decide)⟩

end Akg
